import Mathlib

/-!
# PowerHeatingManager: burst-fire heater firmware (src/src/main.cpp)

A shallow embedding of the three routines of the firmware that touch the control state:

* `ISR(SPI_STC_vect)` (lines 121-146): the byte reception handler,
* `updateOutputs` (lines 149-168): the zero-crossing handler,
* `loop` (lines 84-113): the heartbeat and the failsafe check of the main loop,

together with `setup` (lines 44-82).

Modelling conventions.

* `uint8_t` and `uint32_t` variables are natural numbers; every store that can leave the range
  of the type is reduced modulo `2^8` or `2^32` explicitly.
* The array `semicyclesPerHeatingResistor` is a function on `Fin 6`.  A write through an index
  that is not below 6 is outside the array (undefined behaviour in C), so the reception handler
  returns `none` there.
* The level of the output pin `HEATING_RESISTORS_PINS[i]` is `heaterPins i` (`true` is `HIGH`);
  the six pins `A0 .. A5` and `ledPin` are distinct pins of the board.
* Every call of `millis()` is a parameter of the routine that makes the call.
* The two interrupt handlers run to completion with interrupts masked.  `loop` runs with
  interrupts enabled: an interrupt is served between two iterations, or between two statements
  of lines 105-108 of an iteration whose failsafe test has succeeded.  A run of the firmware is
  a list of such events.
-/

namespace PowerHeatingManager

/-! ## Constants (lines 8-12) -/

abbrev NUMBER_OF_HEATING_RESISTORS : Nat := 6

def MAX_NUMBER_OF_SEMICYCLES : Nat := 120

def RECEIVE_SEMICYCLES_FLAG : Nat := 255

/-- Number of values of a `uint8_t`. -/
def UINT8_MOD : Nat := 256

/-- Number of values of a `uint32_t`. -/
def UINT32_MOD : Nat := 4294967296

/-! ## Enumerations (lines 26-36) -/

/-- The enum `Status` of lines 26-31. -/
inductive Status where
  | WAITING
  | STOP
  | IN_TRANSACTION
  | START_TRANSACTION
  deriving DecidableEq, Repr

/-- The integer value of each enumerator of `Status`. -/
def Status.toNat : Status → Nat
  | Status.WAITING => 0
  | Status.STOP => 1
  | Status.IN_TRANSACTION => 2
  | Status.START_TRANSACTION => 255

/-- The enum `LedStatus` of lines 33-36. -/
inductive LedStatus where
  | ON
  | OFF
  deriving DecidableEq, Repr

/-! ## State -/

/-- The global variables of lines 10-39 and the levels of the output pins. -/
structure State where
  semicyclesPerHeatingResistor : Fin NUMBER_OF_HEATING_RESISTORS → Nat
  semicyclesCounter : Nat
  index : Nat
  dataReceived : Nat
  protectionTime : Nat
  ledTime : Nat
  ledStatus : LedStatus
  currentStatus : Status
  heaterPins : Fin NUMBER_OF_HEATING_RESISTORS → Bool
  ledPin : Bool

/-- The state at reset: statics are zero-initialised (enumerator 0 of each enum) and every
pin is low. -/
def powerOn : State where
  semicyclesPerHeatingResistor := fun _ => 0
  semicyclesCounter := 0
  index := 0
  dataReceived := 0
  protectionTime := 0
  ledTime := 0
  ledStatus := LedStatus.ON
  currentStatus := Status.WAITING
  heaterPins := fun _ => false
  ledPin := false

/-- The call `digitalWrite(HEATING_RESISTORS_PINS[i], v)`. -/
def digitalWriteHeater (i : Fin NUMBER_OF_HEATING_RESISTORS) (v : Bool) (s : State) : State :=
  { s with heaterPins := Function.update s.heaterPins i v }

/-- A loop `for (uint8_t i = 0; i < NUMBER_OF_HEATING_RESISTORS; ++i) body`. -/
def forEachResistor (body : Fin NUMBER_OF_HEATING_RESISTORS → State → State) (s : State) :
    State :=
  (List.finRange NUMBER_OF_HEATING_RESISTORS).foldl (fun st i => body i st) s

/-! ## setup (lines 44-82) -/

/-- The function `setup`; `millis` is the value read at line 81. -/
def setup (millis : Nat) (s : State) : State :=
  let s1 := forEachResistor
    (fun i st => { st with
      semicyclesPerHeatingResistor := Function.update st.semicyclesPerHeatingResistor i 0 }) s
  { s1 with
    currentStatus := Status.WAITING
    ledStatus := LedStatus.ON
    index := 0
    semicyclesCounter := 0
    ledTime := millis % UINT32_MOD }

/-! ## loop (lines 84-113) -/

/-- The subtraction `a - b` of two `uint32_t` values. -/
def sub32 (a b : Nat) : Nat :=
  (a % UINT32_MOD + UINT32_MOD - b % UINT32_MOD) % UINT32_MOD

/-- Lines 89-98: the heartbeat; `m1` and `m2` are the values of `millis()` at lines 89 and
97. -/
def heartbeat (m1 m2 : Nat) (s : State) : State :=
  if sub32 m1 s.ledTime ≥ 1000 then
    let s1 :=
      if s.ledStatus = LedStatus.ON then
        { s with ledPin := true, ledStatus := LedStatus.OFF }
      else
        { s with ledPin := false, ledStatus := LedStatus.ON }
    { s1 with ledTime := m2 % UINT32_MOD }
  else s

/-- Lines 104-109: the failsafe check; `now` is the value of `millis()` at line 104. -/
def failsafeCheck (now : Nat) (s : State) : State :=
  if sub32 now s.protectionTime ≥ 5000 then
    let s1 := forEachResistor (fun i st => digitalWriteHeater i false st) s
    { s1 with currentStatus := Status.STOP }
  else s

/-- One iteration of `loop`; `m1`, `m2` and `now` are the three readings of `millis()`. -/
def loop (m1 m2 now : Nat) (s : State) : State :=
  failsafeCheck now (heartbeat m1 m2 s)

/-! ## ISR(SPI_STC_vect) (lines 121-146) -/

/-- The reception handler; `SPDR` is the received byte and `millis` the value read at line
145.  The result is `none` when the store of lines 133/135 falls outside the array. -/
def ISR_SPI_STC_vect (SPDR millis : Nat) (s : State) : Option State :=
  let s0 := { s with dataReceived := SPDR % UINT8_MOD }
  let r : Option State :=
    if s0.dataReceived = Status.START_TRANSACTION.toNat then
      some { s0 with currentStatus := Status.IN_TRANSACTION, index := 0 }
    else if s0.currentStatus = Status.IN_TRANSACTION then
      if h : s0.index < NUMBER_OF_HEATING_RESISTORS then
        let s1 :=
          if s0.dataReceived > MAX_NUMBER_OF_SEMICYCLES then
            { s0 with semicyclesPerHeatingResistor :=
                Function.update s0.semicyclesPerHeatingResistor ⟨s0.index, h⟩ 0 }
          else
            { s0 with semicyclesPerHeatingResistor :=
                Function.update s0.semicyclesPerHeatingResistor ⟨s0.index, h⟩ s0.dataReceived }
        let s2 := { s1 with index := (s1.index + 1) % UINT8_MOD }
        if s2.index ≥ NUMBER_OF_HEATING_RESISTORS then
          some { s2 with index := 0, currentStatus := Status.WAITING }
        else
          some s2
      else
        none
    else
      some s0
  r.map (fun st => { st with protectionTime := millis % UINT32_MOD })

/-! ## updateOutputs (lines 149-168) -/

/-- The zero-crossing handler. -/
def updateOutputs (s : State) : State :=
  if s.currentStatus ≠ Status.STOP then
    let s1 := { s with semicyclesCounter := (s.semicyclesCounter + 1) % UINT8_MOD }
    let s2 := forEachResistor
      (fun i st =>
        if st.semicyclesCounter ≤ st.semicyclesPerHeatingResistor i then
          digitalWriteHeater i true st
        else
          digitalWriteHeater i false st) s1
    if s2.semicyclesCounter > MAX_NUMBER_OF_SEMICYCLES then
      { s2 with semicyclesCounter := 0 }
    else s2
  else s

/-! ## Runs of the firmware -/

/-- The two interrupt sources: the SPI transfer (handler `ISR(SPI_STC_vect)`) and the falling
edge on the zero-crossing pin (handler `updateOutputs`, attached at line 63). -/
inductive Irq where
  | byte (SPDR millis : Nat)
  | zeroCross

/-- The handler of one interrupt.  A handler runs with interrupts masked, so it is not
preempted by the other handler. -/
def irq (i : Irq) (s : State) : Option State :=
  match i with
  | Irq.byte b m => ISR_SPI_STC_vect b m s
  | Irq.zeroCross => some (updateOutputs s)

/-- The handlers of a list of interrupts, first interrupt first. -/
def irqs : List Irq → State → Option State
  | [], s => some s
  | i :: is, s => (irq i s).bind (irqs is)

/-- The interrupts that arrive during one iteration of `loop` after the test of line 104:
`beforeWrite i` are those served right before `digitalWrite(HEATING_RESISTORS_PINS[i], LOW)`
of line 106, `beforeStop` those served between the last `digitalWrite` and the assignment
`currentStatus = STOP` of line 108.  `loop` does not mask interrupts. -/
structure Preemption where
  beforeWrite : Fin NUMBER_OF_HEATING_RESISTORS → List Irq
  beforeStop : List Irq

/-- The interrupts of the slots before the writes of the listed channels, in order. -/
def Preemption.writeIrqs (p : Preemption) : List (Fin NUMBER_OF_HEATING_RESISTORS) → List Irq
  | [] => []
  | i :: is => p.beforeWrite i ++ p.writeIrqs is

/-- All interrupts of a preemption, in the order in which they are served. -/
def Preemption.all (p : Preemption) : List Irq :=
  p.writeIrqs (List.finRange NUMBER_OF_HEATING_RESISTORS) ++ p.beforeStop

/-- Lines 105-107 for the listed channels, each `digitalWrite` preceded by the interrupts of
its slot. -/
def writesPreempted (p : Preemption) :
    List (Fin NUMBER_OF_HEATING_RESISTORS) → State → Option State
  | [], s => some s
  | i :: is, s =>
    (irqs (p.beforeWrite i) s).bind
      (fun s1 => writesPreempted p is (digitalWriteHeater i false s1))

/-- Lines 104-109 with interrupts enabled.  When the test of line 104 succeeds, the interrupts
of `p` are served at their places between the statements of lines 105-108; when it fails,
lines 105-108 are not executed and the interrupts are served one after another. -/
def failsafeCheckPreempted (now : Nat) (p : Preemption) (s : State) : Option State :=
  if sub32 now s.protectionTime ≥ 5000 then
    ((writesPreempted p (List.finRange NUMBER_OF_HEATING_RESISTORS) s).bind
      (irqs p.beforeStop)).map (fun s2 => { s2 with currentStatus := Status.STOP })
  else irqs p.all s

/-- One iteration of `loop` during which the interrupts of `p` arrive after the test of line
104.  Lines 89-98 share no variable with the handlers, so an interrupt that arrives before
line 104 has the effect of the same interrupt served before the iteration. -/
def loopPreempted (m1 m2 now : Nat) (p : Preemption) (s : State) : Option State :=
  failsafeCheckPreempted now p (heartbeat m1 m2 s)

/-- The things that happen to the firmware after `setup`: an interrupt served while `loop` is
between two iterations (`byte`, `zeroCross`), an iteration of `loop` that no interrupt
preempts after line 104 (`poll`), and an iteration that is preempted (`pollPreempted`). -/
inductive Event where
  | byte (SPDR millis : Nat)
  | zeroCross
  | poll (m1 m2 now : Nat)
  | pollPreempted (m1 m2 now : Nat) (p : Preemption)

/-- The effect of one event. -/
def step (e : Event) (s : State) : Option State :=
  match e with
  | Event.byte b m => ISR_SPI_STC_vect b m s
  | Event.zeroCross => some (updateOutputs s)
  | Event.poll m1 m2 now => some (loop m1 m2 now s)
  | Event.pollPreempted m1 m2 now p => loopPreempted m1 m2 now p s

/-- The effect of a list of events, first event first. -/
def run : List Event → State → Option State
  | [], s => some s
  | e :: es, s => (step e s).bind (run es)

/-- The states the firmware can be in between two events. -/
def Reachable (s : State) : Prop :=
  ∃ (t : Nat) (es : List Event), run es (setup t powerOn) = some s

/-- Whether the failsafe check of a loop iteration fires in state `s`. -/
def trips (e : Event) (s : State) : Bool :=
  match e with
  | Event.poll m1 m2 now => decide (sub32 now (heartbeat m1 m2 s).protectionTime ≥ 5000)
  | Event.pollPreempted m1 m2 now _ =>
    decide (sub32 now (heartbeat m1 m2 s).protectionTime ≥ 5000)
  | _ => false

/-- No loop iteration of the run fires the failsafe. -/
def noTrip : List Event → State → Bool
  | [], _ => true
  | e :: es, s =>
    !(trips e s) &&
      match step e s with
      | some s1 => noTrip es s1
      | none => true

/-- The bytes received by a list of interrupts, in order. -/
def irqBytes : List Irq → List Nat
  | [] => []
  | Irq.byte b _ :: is => b :: irqBytes is
  | Irq.zeroCross :: is => irqBytes is

/-- The bytes received during a run, in order. -/
def spdrOf : List Event → List Nat
  | [] => []
  | Event.byte b _ :: es => b :: spdrOf es
  | Event.pollPreempted _ _ _ p :: es => irqBytes p.all ++ spdrOf es
  | _ :: es => spdrOf es

/-- A run that consists of the given bytes only (all handled at time 0). -/
def bytesOnly (bs : List Nat) : List Event :=
  bs.map (fun b => Event.byte b 0)

/-- The part of the state the reception protocol works on: status, cursor, thresholds. -/
def core (s : State) : Status × Nat × (Fin NUMBER_OF_HEATING_RESISTORS → Nat) :=
  (s.currentStatus, s.index, s.semicyclesPerHeatingResistor)

/-- The value stored for a payload byte `v` (lines 132-136). -/
def clamp (v : Nat) : Nat :=
  if v > MAX_NUMBER_OF_SEMICYCLES then 0 else v

/-- The thresholds of a state as a list, channel 0 first. -/
def thresholds (s : State) : List Nat :=
  List.ofFn s.semicyclesPerHeatingResistor

/-- The output levels of a state as a list, channel 0 first. -/
def outputs (s : State) : List Bool :=
  List.ofFn s.heaterPins

/-- The invariant of the reachable states: thresholds and counter are at most
`MAX_NUMBER_OF_SEMICYCLES` and the cursor is inside the array. -/
def Inv (s : State) : Prop :=
  (∀ i, s.semicyclesPerHeatingResistor i ≤ MAX_NUMBER_OF_SEMICYCLES) ∧
    s.semicyclesCounter ≤ MAX_NUMBER_OF_SEMICYCLES ∧
    s.index < NUMBER_OF_HEATING_RESISTORS

/-- Status `STOP` comes with every output low. -/
def StopOff (s : State) : Prop :=
  s.currentStatus = Status.STOP → ∀ c, s.heaterPins c = false

/-- Whether an interrupt is a received byte. -/
def Irq.isByte (i : Irq) : Bool :=
  match i with
  | Irq.byte _ _ => true
  | Irq.zeroCross => false

/-- Whether no zero-crossing edge preempts the event: the event is not a preempted loop
iteration, or all interrupts that preempt it are received bytes. -/
def edgeFree (e : Event) : Bool :=
  match e with
  | Event.pollPreempted _ _ _ p => p.all.all Irq.isByte
  | _ => true

/-! ## Concrete states and runs -/

/-- A running state in the middle of a frame: counter 59, last contact at 1000 ms. -/
def midFrame : State where
  semicyclesPerHeatingResistor := fun i => [60, 0, 120, 59, 1, 61].getD i.val 0
  semicyclesCounter := 59
  index := 0
  dataReceived := 61
  protectionTime := 1000
  ledTime := 0
  ledStatus := LedStatus.ON
  currentStatus := Status.WAITING
  heaterPins := fun i => [true, false, true, true, false, true].getD i.val false
  ledPin := false

/-- A state after a failsafe trip: status `STOP`, every output low, old thresholds kept. -/
def afterTrip : State where
  semicyclesPerHeatingResistor := fun i => [60, 7, 120, 59, 1, 61].getD i.val 0
  semicyclesCounter := 0
  index := 3
  dataReceived := 59
  protectionTime := 1000
  ledTime := 0
  ledStatus := LedStatus.ON
  currentStatus := Status.STOP
  heaterPins := fun _ => false
  ledPin := false

/-- Scenario A of the spec: START, then 10, 0, 120, 121, 50, 60. -/
def scenarioA : List Event :=
  [Event.byte 255 7000, Event.byte 10 7001, Event.byte 0 7002, Event.byte 120 7003,
    Event.byte 121 7004, Event.byte 50 7005, Event.byte 60 7006]

/-- Whether an event contains the reception of the START marker. -/
def isStart (e : Event) : Bool :=
  match e with
  | Event.byte b _ => decide (b % UINT8_MOD = 255)
  | Event.pollPreempted _ _ _ p => (irqBytes p.all).any (fun b => decide (b % UINT8_MOD = 255))
  | _ => false

/-- A committed transaction 60, 7, 120, 59, 1, 61, then silence until the loop iteration at
6000 ms fires the failsafe. -/
def tripRun : List Event :=
  [Event.byte 255 100, Event.byte 60 101, Event.byte 7 102, Event.byte 120 103,
    Event.byte 59 104, Event.byte 1 105, Event.byte 61 106, Event.poll 6000 6000 6000]

/-- The state the firmware is in after `tripRun`. -/
def trippedState : State :=
  (run tripRun (setup 0 powerOn)).getD powerOn

/-- The state right after the first START byte. -/
def receivingState : State :=
  (run [Event.byte 255 100] (setup 0 powerOn)).getD powerOn

/-- Events without a START byte: payload-like bytes, edges and loop iterations. -/
def noStartRun : List Event :=
  [Event.byte 10 7000, Event.zeroCross, Event.poll 7001 7001 7001, Event.byte 120 7002,
    Event.zeroCross]

/-- A START, two payload bytes, and an edge in between. -/
def shortRun : List Event :=
  [Event.byte 255 7000, Event.byte 10 7001, Event.zeroCross, Event.byte 121 7002]

/-- An abandoned transaction (START, 10, 121) followed by scenario A. -/
def restartRun : List Event :=
  [Event.byte 255 6000, Event.byte 10 6001, Event.byte 121 6002] ++ scenarioA

/-- The effect of `n` consecutive zero-crossing edges with nothing else in between. -/
def edges : Nat → State → State
  | 0, s => s
  | n + 1, s => updateOutputs (edges n s)

/-- The level of channel `c` after each of the first `n` consecutive edges, first edge
first. -/
def pinTrace (c : Fin NUMBER_OF_HEATING_RESISTORS) (n : Nat) (s : State) : List Bool :=
  (List.range n).map (fun j => (edges (j + 1) s).heaterPins c)

/-- A first transaction that commits the thresholds 120, 60, 0, 1, 119, 61. -/
def frameRun : List Event :=
  [Event.byte 255 994, Event.byte 120 995, Event.byte 60 996, Event.byte 0 997,
    Event.byte 1 998, Event.byte 119 999, Event.byte 61 1000]

/-- The start of a frame: the state after `frameRun`, with counter 0, thresholds 120, 60, 0,
1, 119, 61 and status `WAITING`. -/
def frameStart : State :=
  (run frameRun (setup 0 powerOn)).getD powerOn

/-- A committed transaction 60, 7, 120, 59, 1, 61, then silence until the loop iteration at
6000 ms, whose failsafe test succeeds and which a zero-crossing edge preempts between the
last `digitalWrite` of line 106 and the assignment of line 108. -/
def preemptedTrip : List Event :=
  [Event.byte 255 100, Event.byte 60 101, Event.byte 7 102, Event.byte 120 103,
    Event.byte 59 104, Event.byte 1 105, Event.byte 61 106,
    Event.pollPreempted 6000 6000 6000
      { beforeWrite := fun _ => [], beforeStop := [Irq.zeroCross] }]

/-- The state the firmware is in after `preemptedTrip`. -/
def preemptedState : State :=
  (run preemptedTrip (setup 0 powerOn)).getD powerOn

/-- A byte stream with seven payload bytes after the first START (one more than the array
holds), a second transaction cut short after two bytes, and a failsafe trip in the middle of
it. -/
def overrunRun : List Event :=
  [Event.byte 255 100, Event.byte 1 101, Event.byte 2 102, Event.byte 3 103, Event.byte 4 104,
    Event.byte 5 105, Event.byte 6 106, Event.byte 7 107, Event.zeroCross,
    Event.byte 255 200, Event.byte 8 201, Event.byte 9 202, Event.poll 9000 9000 9000]

/-- The state the firmware is in after `overrunRun`. -/
def overrunState : State :=
  (run overrunRun (setup 0 powerOn)).getD powerOn

/-- A running state whose last contact was 296 ms before the millisecond clock wraps. -/
def nearRollover : State :=
  { midFrame with protectionTime := 4294967000 }

/-! ## The loops, in closed form -/

theorem finRange_resistors :
    List.finRange NUMBER_OF_HEATING_RESISTORS = [0, 1, 2, 3, 4, 5] := by
  decide

theorem forEachResistor_off (s : State) :
    forEachResistor (fun i st => digitalWriteHeater i false st) s
      = { s with heaterPins := fun _ => false } := by
  simp only [forEachResistor, finRange_resistors, List.foldl, digitalWriteHeater]
  congr 1
  funext i
  fin_cases i <;> rfl

theorem forEachResistor_compare (s : State) :
    forEachResistor
      (fun i st =>
        if st.semicyclesCounter ≤ st.semicyclesPerHeatingResistor i then
          digitalWriteHeater i true st
        else
          digitalWriteHeater i false st) s
      = { s with heaterPins :=
            fun i => decide (s.semicyclesCounter ≤ s.semicyclesPerHeatingResistor i) } := by
  have hbody : (fun (i : Fin NUMBER_OF_HEATING_RESISTORS) (st : State) =>
        if st.semicyclesCounter ≤ st.semicyclesPerHeatingResistor i then
          digitalWriteHeater i true st
        else
          digitalWriteHeater i false st)
      = fun i st => digitalWriteHeater i
          (decide (st.semicyclesCounter ≤ st.semicyclesPerHeatingResistor i)) st := by
    funext i st
    by_cases h : st.semicyclesCounter ≤ st.semicyclesPerHeatingResistor i <;> simp [h]
  rw [hbody]
  simp only [forEachResistor, finRange_resistors, List.foldl, digitalWriteHeater]
  congr 1
  funext i
  fin_cases i <;> rfl

theorem forEachResistor_clear (s : State) :
    forEachResistor
      (fun i st => { st with
        semicyclesPerHeatingResistor := Function.update st.semicyclesPerHeatingResistor i 0 }) s
      = { s with semicyclesPerHeatingResistor := fun _ => 0 } := by
  simp only [forEachResistor, finRange_resistors, List.foldl]
  congr 1
  funext i
  fin_cases i <;> rfl

theorem updateOutputs_eq (s : State) :
    updateOutputs s =
      if s.currentStatus = Status.STOP then s
      else
        { s with
          semicyclesCounter :=
            if (s.semicyclesCounter + 1) % UINT8_MOD > MAX_NUMBER_OF_SEMICYCLES then 0
            else (s.semicyclesCounter + 1) % UINT8_MOD
          heaterPins := fun i =>
            decide ((s.semicyclesCounter + 1) % UINT8_MOD ≤ s.semicyclesPerHeatingResistor i) } := by
  unfold updateOutputs
  by_cases h : s.currentStatus = Status.STOP
  · simp [h]
  · simp only [ne_eq, h, not_false_eq_true, if_true, if_false, forEachResistor_compare]
    split <;> rfl

theorem failsafeCheck_eq (now : Nat) (s : State) :
    failsafeCheck now s =
      if sub32 now s.protectionTime ≥ 5000 then
        { s with heaterPins := fun _ => false, currentStatus := Status.STOP }
      else s := by
  unfold failsafeCheck
  simp only [forEachResistor_off]

theorem sub32_of_le (a b : Nat) (ha : a < UINT32_MOD) (hb : b ≤ a) : sub32 a b = a - b := by
  unfold sub32 UINT32_MOD at *
  omega

/-! ## The reception handler, case by case -/

theorem ISR_start (b m : Nat) (s : State) (hb : b % UINT8_MOD = 255) :
    ISR_SPI_STC_vect b m s =
      some { s with
        dataReceived := 255
        currentStatus := Status.IN_TRANSACTION
        index := 0
        protectionTime := m % UINT32_MOD } := by
  simp [ISR_SPI_STC_vect, hb, Status.toNat]

theorem ISR_ignored (b m : Nat) (s : State) (hb : b % UINT8_MOD ≠ 255)
    (hs : s.currentStatus ≠ Status.IN_TRANSACTION) :
    ISR_SPI_STC_vect b m s =
      some { s with dataReceived := b % UINT8_MOD, protectionTime := m % UINT32_MOD } := by
  simp [ISR_SPI_STC_vect, hb, hs, Status.toNat]

theorem ISR_payload (b m : Nat) (s : State) (hb : b % UINT8_MOD ≠ 255)
    (hs : s.currentStatus = Status.IN_TRANSACTION)
    (hi : s.index < NUMBER_OF_HEATING_RESISTORS) :
    ISR_SPI_STC_vect b m s =
      some { s with
        dataReceived := b % UINT8_MOD
        semicyclesPerHeatingResistor :=
          Function.update s.semicyclesPerHeatingResistor ⟨s.index, hi⟩ (clamp (b % UINT8_MOD))
        index := if s.index + 1 ≥ NUMBER_OF_HEATING_RESISTORS then 0 else s.index + 1
        currentStatus :=
          if s.index + 1 ≥ NUMBER_OF_HEATING_RESISTORS then Status.WAITING
          else Status.IN_TRANSACTION
        protectionTime := m % UINT32_MOD } := by
  have h256 : (s.index + 1) % UINT8_MOD = s.index + 1 := by
    have hi6 : s.index < 6 := hi
    apply Nat.mod_eq_of_lt
    unfold UINT8_MOD
    omega
  by_cases hc : b % UINT8_MOD > MAX_NUMBER_OF_SEMICYCLES <;>
  by_cases hn : s.index + 1 ≥ NUMBER_OF_HEATING_RESISTORS <;>
  simp [ISR_SPI_STC_vect, hb, hs, hi, hc, hn, h256, Status.toNat, clamp]

theorem ISR_outside (b m : Nat) (s : State) (hb : b % UINT8_MOD ≠ 255)
    (hs : s.currentStatus = Status.IN_TRANSACTION)
    (hi : ¬ s.index < NUMBER_OF_HEATING_RESISTORS) :
    ISR_SPI_STC_vect b m s = none := by
  simp [ISR_SPI_STC_vect, hb, hs, hi, Status.toNat]

/-! ## The protocol state only depends on the bytes -/

theorem core_eq_iff (s t : State) :
    core s = core t ↔
      s.currentStatus = t.currentStatus ∧ s.index = t.index ∧
        s.semicyclesPerHeatingResistor = t.semicyclesPerHeatingResistor := by
  simp [core]

theorem ISR_core (b m m2 : Nat) (s t : State) (h : core s = core t) :
    (ISR_SPI_STC_vect b m s).map core = (ISR_SPI_STC_vect b m2 t).map core := by
  obtain ⟨h1, h2, h3⟩ := (core_eq_iff s t).1 h
  by_cases hb : b % UINT8_MOD = 255
  · rw [ISR_start b m s hb, ISR_start b m2 t hb]
    simp [core, h3]
  · by_cases hs : s.currentStatus = Status.IN_TRANSACTION
    · have ht : t.currentStatus = Status.IN_TRANSACTION := h1 ▸ hs
      by_cases hi : s.index < NUMBER_OF_HEATING_RESISTORS
      · have hj : t.index < NUMBER_OF_HEATING_RESISTORS := h2 ▸ hi
        rw [ISR_payload b m s hb hs hi, ISR_payload b m2 t hb ht hj]
        simp [core, h2, h3]
      · have hj : ¬ t.index < NUMBER_OF_HEATING_RESISTORS := h2 ▸ hi
        rw [ISR_outside b m s hb hs hi, ISR_outside b m2 t hb ht hj]
    · have ht : t.currentStatus ≠ Status.IN_TRANSACTION := h1 ▸ hs
      rw [ISR_ignored b m s hb hs, ISR_ignored b m2 t hb ht]
      simp [core, h1, h2, h3]

theorem updateOutputs_core (s : State) : core (updateOutputs s) = core s := by
  rw [updateOutputs_eq]
  split <;> rfl

theorem heartbeat_core (m1 m2 : Nat) (s : State) : core (heartbeat m1 m2 s) = core s := by
  unfold heartbeat
  split
  · split <;> rfl
  · rfl

theorem heartbeat_protectionTime (m1 m2 : Nat) (s : State) :
    (heartbeat m1 m2 s).protectionTime = s.protectionTime := by
  unfold heartbeat
  split
  · split <;> rfl
  · rfl

theorem heartbeat_heaterPins (m1 m2 : Nat) (s : State) :
    (heartbeat m1 m2 s).heaterPins = s.heaterPins := by
  unfold heartbeat
  split
  · split <;> rfl
  · rfl

theorem heartbeat_semicyclesCounter (m1 m2 : Nat) (s : State) :
    (heartbeat m1 m2 s).semicyclesCounter = s.semicyclesCounter := by
  unfold heartbeat
  split
  · split <;> rfl
  · rfl

theorem loop_core_of_not_trips (m1 m2 now : Nat) (s : State)
    (h : trips (Event.poll m1 m2 now) s = false) :
    core (loop m1 m2 now s) = core s := by
  have h2 : ¬ sub32 now (heartbeat m1 m2 s).protectionTime ≥ 5000 := by
    simpa [trips] using h
  unfold loop
  rw [failsafeCheck_eq, if_neg h2, heartbeat_core]

theorem run_append (es fs : List Event) (s : State) :
    run (es ++ fs) s = (run es s).bind (run fs) := by
  induction es generalizing s with
  | nil => rfl
  | cons e es ih =>
    simp only [List.cons_append, run]
    cases step e s with
    | none => rfl
    | some s1 => simpa using ih s1

theorem run_bytes_core (bs : List Nat) (s t : State) (h : core s = core t) :
    (run (bytesOnly bs) s).map core = (run (bytesOnly bs) t).map core := by
  induction bs generalizing s t with
  | nil => simpa [bytesOnly, run] using h
  | cons b bs ih =>
    have hstep := ISR_core b 0 0 s t h
    simp only [bytesOnly, List.map_cons, run, step] at ih ⊢
    cases hs : ISR_SPI_STC_vect b 0 s with
    | none =>
      cases ht : ISR_SPI_STC_vect b 0 t with
      | none => rfl
      | some t1 => simp [hs, ht] at hstep
    | some s1 =>
      cases ht : ISR_SPI_STC_vect b 0 t with
      | none => simp [hs, ht] at hstep
      | some t1 =>
        have h1 : core s1 = core t1 := by simpa [hs, ht] using hstep
        simpa using ih s1 t1 h1

theorem irqs_core (l : List Irq) (s t : State) (h : core s = core t) :
    (irqs l s).map core = (run (bytesOnly (irqBytes l)) t).map core := by
  induction l generalizing s t with
  | nil => simpa [irqs, irqBytes, bytesOnly, run] using h
  | cons i l ih =>
    cases i with
    | byte b m =>
      have hstep := ISR_core b m 0 s t h
      simp only [irqs, irq, irqBytes, bytesOnly, List.map_cons, run, step]
      cases hs : ISR_SPI_STC_vect b m s with
      | none =>
        cases ht : ISR_SPI_STC_vect b 0 t with
        | none => rfl
        | some t1 => simp [hs, ht] at hstep
      | some s1 =>
        cases ht : ISR_SPI_STC_vect b 0 t with
        | none => simp [hs, ht] at hstep
        | some t1 =>
          have h1 : core s1 = core t1 := by simpa [hs, ht] using hstep
          simpa [bytesOnly] using ih s1 t1 h1
    | zeroCross =>
      simp only [irqs, irq, irqBytes, Option.some_bind]
      exact ih _ t ((updateOutputs_core s).trans h)

theorem run_core_bytes (es : List Event) (s : State) (hq : noTrip es s = true) :
    (run es s).map core = (run (bytesOnly (spdrOf es)) s).map core := by
  induction es generalizing s with
  | nil => rfl
  | cons e es ih =>
    simp only [noTrip, Bool.and_eq_true, Bool.not_eq_true'] at hq
    obtain ⟨htrip, hrest⟩ := hq
    cases e with
    | byte b m =>
      have hstep := ISR_core b m 0 s s rfl
      simp only [step] at hrest
      simp only [run, step, spdrOf, bytesOnly, List.map_cons]
      cases hs : ISR_SPI_STC_vect b m s with
      | none =>
        cases ht : ISR_SPI_STC_vect b 0 s with
        | none => rfl
        | some t1 => simp [hs, ht] at hstep
      | some s1 =>
        cases ht : ISR_SPI_STC_vect b 0 s with
        | none => simp [hs, ht] at hstep
        | some t1 =>
          have h1 : core s1 = core t1 := by simpa [hs, ht] using hstep
          rw [hs] at hrest
          have h2 := ih s1 hrest
          have h3 := run_bytes_core (spdrOf es) s1 t1 h1
          simpa [bytesOnly] using h2.trans h3
    | zeroCross =>
      simp only [step] at hrest
      simp only [run, step, spdrOf, Option.some_bind]
      exact (ih _ hrest).trans (run_bytes_core _ _ _ (updateOutputs_core s))
    | poll m1 m2 now =>
      simp only [step] at hrest
      simp only [run, step, spdrOf, Option.some_bind]
      exact (ih _ hrest).trans
        (run_bytes_core _ _ _ (loop_core_of_not_trips m1 m2 now s htrip))
    | pollPreempted m1 m2 now p =>
      have hnt : ¬ sub32 now (heartbeat m1 m2 s).protectionTime ≥ 5000 := by
        simpa [trips] using htrip
      have hstep : step (Event.pollPreempted m1 m2 now p) s
          = irqs p.all (heartbeat m1 m2 s) := by
        simp only [step, loopPreempted, failsafeCheckPreempted, if_neg hnt]
      rw [hstep] at hrest
      have hA := irqs_core p.all (heartbeat m1 m2 s) s (heartbeat_core m1 m2 s)
      have happ : bytesOnly (irqBytes p.all ++ spdrOf es)
          = bytesOnly (irqBytes p.all) ++ bytesOnly (spdrOf es) := by
        simp [bytesOnly]
      simp only [run, spdrOf]
      rw [hstep, happ, run_append]
      cases hs : irqs p.all (heartbeat m1 m2 s) with
      | none =>
        cases ht : run (bytesOnly (irqBytes p.all)) s with
        | none => rfl
        | some t1 => simp [hs, ht] at hA
      | some s1 =>
        cases ht : run (bytesOnly (irqBytes p.all)) s with
        | none => simp [hs, ht] at hA
        | some t1 =>
          have h1 : core s1 = core t1 := by simpa [hs, ht] using hA
          rw [hs] at hrest
          have h2 := ih s1 hrest
          have h3 := run_bytes_core (spdrOf es) s1 t1 h1
          simpa using h2.trans h3

/-! ## Payload bytes of a transaction -/

theorem ISR_payload_next (b m : Nat) (s : State) (hb : b % UINT8_MOD ≠ 255)
    (hs : s.currentStatus = Status.IN_TRANSACTION) (hi : s.index + 1 < 6) :
    ∃ s1, ISR_SPI_STC_vect b m s = some s1 ∧
      s1.currentStatus = Status.IN_TRANSACTION ∧ s1.index = s.index + 1 ∧
      (∀ i : Fin NUMBER_OF_HEATING_RESISTORS, s1.semicyclesPerHeatingResistor i =
        if i.val = s.index then clamp (b % UINT8_MOD) else s.semicyclesPerHeatingResistor i) ∧
      s1.heaterPins = s.heaterPins ∧ s1.semicyclesCounter = s.semicyclesCounter := by
  have hi6 : s.index < NUMBER_OF_HEATING_RESISTORS := by
    show s.index < 6
    omega
  have hn : ¬ s.index + 1 ≥ NUMBER_OF_HEATING_RESISTORS := by
    show ¬ s.index + 1 ≥ 6
    omega
  refine ⟨_, ISR_payload b m s hb hs hi6, ?_, ?_, ?_, rfl, rfl⟩
  · simp only [if_neg hn]
  · simp only [if_neg hn]
  · intro i
    simp only [Function.update, Fin.ext_iff]
    split <;> simp_all

theorem ISR_payload_last (b m : Nat) (s : State) (hb : b % UINT8_MOD ≠ 255)
    (hs : s.currentStatus = Status.IN_TRANSACTION) (hi : s.index + 1 = 6) :
    ∃ s1, ISR_SPI_STC_vect b m s = some s1 ∧
      s1.currentStatus = Status.WAITING ∧ s1.index = 0 ∧
      (∀ i : Fin NUMBER_OF_HEATING_RESISTORS, s1.semicyclesPerHeatingResistor i =
        if i.val = s.index then clamp (b % UINT8_MOD) else s.semicyclesPerHeatingResistor i) ∧
      s1.heaterPins = s.heaterPins ∧ s1.semicyclesCounter = s.semicyclesCounter := by
  have hi6 : s.index < NUMBER_OF_HEATING_RESISTORS := by
    show s.index < 6
    omega
  have hn : s.index + 1 ≥ NUMBER_OF_HEATING_RESISTORS := by
    show s.index + 1 ≥ 6
    omega
  refine ⟨_, ISR_payload b m s hb hs hi6, ?_, ?_, ?_, rfl, rfl⟩
  · simp only [if_pos hn]
  · simp only [if_pos hn]
  · intro i
    simp only [Function.update, Fin.ext_iff]
    split <;> simp_all

theorem run_payload_short (p : List Nat) (s : State)
    (hs : s.currentStatus = Status.IN_TRANSACTION) (hlen : s.index + p.length < 6)
    (hp : ∀ b ∈ p, b % UINT8_MOD ≠ 255) :
    ∃ s1, run (bytesOnly p) s = some s1 ∧
      s1.currentStatus = Status.IN_TRANSACTION ∧ s1.index = s.index + p.length ∧
      (∀ i : Fin NUMBER_OF_HEATING_RESISTORS, s1.semicyclesPerHeatingResistor i =
        if s.index ≤ i.val ∧ i.val < s.index + p.length then
          clamp (p.getD (i.val - s.index) 0 % UINT8_MOD)
        else s.semicyclesPerHeatingResistor i) ∧
      s1.heaterPins = s.heaterPins ∧ s1.semicyclesCounter = s.semicyclesCounter := by
  induction p generalizing s with
  | nil =>
    refine ⟨s, rfl, hs, rfl, fun i => ?_, rfl, rfl⟩
    have h : ¬ (s.index ≤ i.val ∧ i.val < s.index + ([] : List Nat).length) := by
      simp only [List.length_nil, Nat.add_zero]
      omega
    rw [if_neg h]
  | cons b p ih =>
    simp only [List.length_cons] at hlen
    obtain ⟨s1, e1, hs1, hi1, ht1, hp1, hc1⟩ :=
      ISR_payload_next b 0 s (hp b (List.mem_cons_self b p)) hs (by omega)
    obtain ⟨s2, e2, hs2, hi2, ht2, hp2, hc2⟩ :=
      ih s1 hs1 (by omega) (fun x hx => hp x (List.mem_cons_of_mem b hx))
    refine ⟨s2, ?_, hs2, ?_, ?_, hp2.trans hp1, hc2.trans hc1⟩
    · simpa [bytesOnly, run, step, e1] using e2
    · simp only [List.length_cons]
      omega
    · intro i
      rw [ht2 i, ht1 i, hi1]
      simp only [List.length_cons]
      by_cases hlt : i.val < s.index
      · have h1 : ¬ (s.index + 1 ≤ i.val ∧ i.val < s.index + 1 + p.length) := by omega
        have h2 : ¬ (s.index ≤ i.val ∧ i.val < s.index + (p.length + 1)) := by omega
        have h3 : ¬ i.val = s.index := by omega
        rw [if_neg h1, if_neg h2, if_neg h3]
      · by_cases heq : i.val = s.index
        · have h1 : ¬ (s.index + 1 ≤ i.val ∧ i.val < s.index + 1 + p.length) := by omega
          have h2 : s.index ≤ i.val ∧ i.val < s.index + (p.length + 1) := by omega
          rw [if_neg h1, if_pos h2, if_pos heq, heq]
          simp
        · obtain ⟨d, hd⟩ : ∃ d, i.val = s.index + 1 + d := ⟨i.val - (s.index + 1), by omega⟩
          have h3 : ¬ i.val = s.index := heq
          by_cases hin : i.val < s.index + 1 + p.length
          · have h1 : s.index + 1 ≤ i.val ∧ i.val < s.index + 1 + p.length := by omega
            have h2 : s.index ≤ i.val ∧ i.val < s.index + (p.length + 1) := by omega
            have e3 : i.val - (s.index + 1) = d := by omega
            have e4 : i.val - s.index = d + 1 := by omega
            rw [if_pos h1, if_pos h2, e3, e4]
            simp
          · have h1 : ¬ (s.index + 1 ≤ i.val ∧ i.val < s.index + 1 + p.length) := by omega
            have h2 : ¬ (s.index ≤ i.val ∧ i.val < s.index + (p.length + 1)) := by omega
            rw [if_neg h1, if_neg h2, if_neg h3]

theorem run_payload_complete (p : List Nat) (s : State)
    (hs : s.currentStatus = Status.IN_TRANSACTION) (hlen : s.index + p.length = 6)
    (hne : p ≠ []) (hp : ∀ b ∈ p, b % UINT8_MOD ≠ 255) :
    ∃ s1, run (bytesOnly p) s = some s1 ∧
      s1.currentStatus = Status.WAITING ∧ s1.index = 0 ∧
      (∀ i : Fin NUMBER_OF_HEATING_RESISTORS, s1.semicyclesPerHeatingResistor i =
        if s.index ≤ i.val then clamp (p.getD (i.val - s.index) 0 % UINT8_MOD)
        else s.semicyclesPerHeatingResistor i) ∧
      s1.heaterPins = s.heaterPins ∧ s1.semicyclesCounter = s.semicyclesCounter := by
  obtain ⟨q, x, rfl⟩ : ∃ q x, p = q ++ [x] := by
    rcases List.eq_nil_or_concat p with h | ⟨q, x, h⟩
    · exact absurd h hne
    · exact ⟨q, x, by simpa using h⟩
  simp only [List.length_append, List.length_singleton] at hlen
  obtain ⟨s1, e1, hs1, hi1, ht1, hp1, hc1⟩ :=
    run_payload_short q s hs (by omega) (fun b hb => hp b (by simp [hb]))
  obtain ⟨s2, e2, hs2, hi2, ht2, hp2, hc2⟩ :=
    ISR_payload_last x 0 s1 (hp x (by simp)) hs1 (by omega)
  refine ⟨s2, ?_, hs2, hi2, ?_, hp2.trans hp1, hc2.trans hc1⟩
  · have : bytesOnly (q ++ [x]) = bytesOnly q ++ [Event.byte x 0] := by simp [bytesOnly]
    rw [this, run_append, e1]
    simpa [run, step] using e2
  · intro i
    have hi6 : i.val < 6 := i.isLt
    rw [ht2 i, ht1 i, hi1]
    by_cases heq : i.val = s.index + q.length
    · have h2 : s.index ≤ i.val := by omega
      have e4 : i.val - s.index = q.length := by omega
      rw [if_pos heq, if_pos h2, e4]
      simp
    · by_cases hlt : i.val < s.index
      · have h1 : ¬ (s.index ≤ i.val ∧ i.val < s.index + q.length) := by omega
        have h2 : ¬ s.index ≤ i.val := by omega
        rw [if_neg heq, if_neg h1, if_neg h2]
      · have h1 : s.index ≤ i.val ∧ i.val < s.index + q.length := by omega
        have h2 : s.index ≤ i.val := by omega
        have h5 : i.val - s.index < q.length := by omega
        rw [if_neg heq, if_pos h1, if_pos h2]
        simp [List.getD_eq_getElem?_getD, List.getElem?_append_left h5]

/-! ## Complete transactions -/

theorem mod_byte_ne (bs : List Nat) (hb : ∀ b ∈ bs, b < 256 ∧ b ≠ 255) :
    ∀ b ∈ bs, b % UINT8_MOD ≠ 255 := by
  intro b hbm
  obtain ⟨h1, h2⟩ := hb b hbm
  rw [Nat.mod_eq_of_lt (by unfold UINT8_MOD; omega)]
  exact h2

theorem clamp_byte (v : Nat) (hv : v < 256) :
    clamp (v % UINT8_MOD) = if v ≤ 120 then v else 0 := by
  rw [Nat.mod_eq_of_lt (by unfold UINT8_MOD; omega)]
  simp only [clamp, MAX_NUMBER_OF_SEMICYCLES]
  by_cases h : v ≤ 120
  · rw [if_pos h, if_neg (by omega)]
  · rw [if_neg h, if_pos (by omega)]

theorem getD_mem_of_lt (bs : List Nat) (i : Nat) (hi : i < bs.length) : bs.getD i 0 ∈ bs := by
  rw [List.getD_eq_getElem _ _ hi]
  exact List.getElem_mem hi

theorem run_of_bytes (es : List Event) (s s2 : State) (hq : noTrip es s = true)
    (h2 : run (bytesOnly (spdrOf es)) s = some s2) :
    ∃ s1, run es s = some s1 ∧ core s1 = core s2 := by
  have hcore := run_core_bytes es s hq
  rw [h2] at hcore
  cases hr : run es s with
  | none => simp [hr] at hcore
  | some s1 => exact ⟨s1, rfl, by simpa [hr] using hcore⟩

theorem run_bytes_transaction (s0 : State) (bs : List Nat) (hlen : bs.length = 6)
    (hb : ∀ b ∈ bs, b < 256 ∧ b ≠ 255) :
    ∃ s2, run (bytesOnly (255 :: bs)) s0 = some s2 ∧
      s2.currentStatus = Status.WAITING ∧ s2.index = 0 ∧
      ∀ i : Fin NUMBER_OF_HEATING_RESISTORS, s2.semicyclesPerHeatingResistor i =
        if bs.getD i.val 0 ≤ 120 then bs.getD i.val 0 else 0 := by
  have hne : bs ≠ [] := by
    intro h
    rw [h] at hlen
    simp at hlen
  obtain ⟨s2, e2, hs2, hi2, ht2, _, _⟩ :=
    run_payload_complete bs
      { s0 with
        dataReceived := 255
        currentStatus := Status.IN_TRANSACTION
        index := 0
        protectionTime := 0 % UINT32_MOD }
      rfl (by simpa using hlen) hne (mod_byte_ne bs hb)
  refine ⟨s2, ?_, hs2, hi2, ?_⟩
  · have : bytesOnly (255 :: bs) = Event.byte 255 0 :: bytesOnly bs := rfl
    rw [this]
    simp only [run, step]
    rw [ISR_start 255 0 s0 (by decide)]
    simpa using e2
  · intro i
    rw [ht2 i]
    have hi : i.val < bs.length := by
      rw [hlen]
      exact i.isLt
    have hlt : bs.getD i.val 0 < 256 := (hb _ (getD_mem_of_lt bs i.val hi)).1
    simp only [Nat.zero_le, if_true, Nat.sub_zero]
    exact clamp_byte _ hlt

theorem run_commit (s : State) (es : List Event) (pre bs : List Nat)
    (hes : spdrOf es = pre ++ 255 :: bs) (hpre : ∃ s0, run (bytesOnly pre) s = some s0)
    (hlen : bs.length = 6) (hb : ∀ b ∈ bs, b < 256 ∧ b ≠ 255) (hq : noTrip es s = true) :
    ∃ s1, run es s = some s1 ∧
      (∀ i : Fin NUMBER_OF_HEATING_RESISTORS, s1.semicyclesPerHeatingResistor i =
        if bs.getD i.val 0 ≤ 120 then bs.getD i.val 0 else 0) ∧
      s1.index = 0 ∧ s1.currentStatus = Status.WAITING := by
  obtain ⟨s0, e0⟩ := hpre
  obtain ⟨s2, e2, hs2, hi2, ht2⟩ := run_bytes_transaction s0 bs hlen hb
  have hrun : run (bytesOnly (spdrOf es)) s = some s2 := by
    have : bytesOnly (pre ++ 255 :: bs) = bytesOnly pre ++ bytesOnly (255 :: bs) := by
      simp [bytesOnly]
    rw [hes, this, run_append, e0]
    simpa using e2
  obtain ⟨s1, e1, hc⟩ := run_of_bytes es s s2 hq hrun
  obtain ⟨c1, c2, c3⟩ := (core_eq_iff s1 s2).1 hc
  refine ⟨s1, e1, ?_, c2.trans hi2, c1.trans hs2⟩
  intro i
  rw [c3, ht2 i]

/-! ## Preempted loop iterations -/

theorem heartbeat_updateOutputs_comm (m1 m2 : Nat) (s : State) :
    heartbeat m1 m2 (updateOutputs s) = updateOutputs (heartbeat m1 m2 s) := by
  rw [updateOutputs_eq, updateOutputs_eq]
  unfold heartbeat
  by_cases h1 : sub32 m1 s.ledTime ≥ 1000 <;> by_cases h2 : s.ledStatus = LedStatus.ON <;>
    by_cases h3 : s.currentStatus = Status.STOP <;> simp [h1, h2, h3]

theorem heartbeat_ISR_comm (b m m1 m2 : Nat) (s : State) :
    ISR_SPI_STC_vect b m (heartbeat m1 m2 s)
      = (ISR_SPI_STC_vect b m s).map (heartbeat m1 m2) := by
  unfold heartbeat ISR_SPI_STC_vect
  by_cases h1 : sub32 m1 s.ledTime ≥ 1000 <;> by_cases h2 : s.ledStatus = LedStatus.ON <;>
    by_cases h3 : b % UINT8_MOD = Status.START_TRANSACTION.toNat <;>
    by_cases h4 : s.currentStatus = Status.IN_TRANSACTION <;>
    by_cases h5 : s.index < NUMBER_OF_HEATING_RESISTORS <;>
    by_cases h6 : b % UINT8_MOD > MAX_NUMBER_OF_SEMICYCLES <;>
    by_cases h7 : (s.index + 1) % UINT8_MOD ≥ NUMBER_OF_HEATING_RESISTORS <;>
    simp [h1, h2, h3, h4, h5, h6, h7]

theorem irqs_append (k l : List Irq) (s : State) :
    irqs (k ++ l) s = (irqs k s).bind (irqs l) := by
  induction k generalizing s with
  | nil => rfl
  | cons i k ih =>
    simp only [List.cons_append, irqs]
    cases irq i s with
    | none => rfl
    | some s1 => simpa using ih s1

theorem irqs_preserve (P : State → Prop) (Q : Irq → Prop)
    (hirq : ∀ i s, Q i → P s → ∃ s1, irq i s = some s1 ∧ P s1) (l : List Irq) (s : State)
    (hq : ∀ i ∈ l, Q i) (hs : P s) : ∃ s1, irqs l s = some s1 ∧ P s1 := by
  induction l generalizing s with
  | nil => exact ⟨s, rfl, hs⟩
  | cons i l ih =>
    obtain ⟨s1, h1, hp1⟩ := hirq i s (hq i (List.mem_cons_self i l)) hs
    obtain ⟨s2, h2, hp2⟩ := ih s1 (fun j hj => hq j (List.mem_cons_of_mem i hj)) hp1
    exact ⟨s2, by simp only [irqs, h1, Option.some_bind, h2], hp2⟩

theorem writesPreempted_preserve (P : State → Prop) (Q : Irq → Prop)
    (hirq : ∀ i s, Q i → P s → ∃ s1, irq i s = some s1 ∧ P s1)
    (hw : ∀ c s, P s → P (digitalWriteHeater c false s)) (p : Preemption)
    (cs : List (Fin NUMBER_OF_HEATING_RESISTORS)) (s : State)
    (hq : ∀ i ∈ p.writeIrqs cs, Q i) (hs : P s) :
    ∃ s1, writesPreempted p cs s = some s1 ∧ P s1 := by
  induction cs generalizing s with
  | nil => exact ⟨s, rfl, hs⟩
  | cons c cs ih =>
    have hq1 : ∀ i ∈ p.beforeWrite c, Q i := by
      intro i hi
      apply hq i
      simp only [Preemption.writeIrqs, List.mem_append]
      exact Or.inl hi
    have hq2 : ∀ i ∈ p.writeIrqs cs, Q i := by
      intro i hi
      apply hq i
      simp only [Preemption.writeIrqs, List.mem_append]
      exact Or.inr hi
    obtain ⟨s1, h1, hp1⟩ := irqs_preserve P Q hirq (p.beforeWrite c) s hq1 hs
    obtain ⟨s2, h2, hp2⟩ := ih (digitalWriteHeater c false s1) hq2 (hw c s1 hp1)
    exact ⟨s2, by simp only [writesPreempted, h1, Option.some_bind, h2], hp2⟩

theorem loopPreempted_preserve (P : State → Prop) (Q : Irq → Prop)
    (hirq : ∀ i s, Q i → P s → ∃ s1, irq i s = some s1 ∧ P s1)
    (hw : ∀ c s, P s → P (digitalWriteHeater c false s))
    (hhb : ∀ m1 m2 s, P s → P (heartbeat m1 m2 s))
    (hstop : ∀ s, P s → P { s with currentStatus := Status.STOP })
    (m1 m2 now : Nat) (p : Preemption) (s : State)
    (hq : ∀ i ∈ p.all, Q i) (hs : P s) :
    ∃ s1, loopPreempted m1 m2 now p s = some s1 ∧ P s1 := by
  have hq1 : ∀ i ∈ p.writeIrqs (List.finRange NUMBER_OF_HEATING_RESISTORS), Q i := by
    intro i hi
    apply hq i
    simp only [Preemption.all, List.mem_append]
    exact Or.inl hi
  have hq2 : ∀ i ∈ p.beforeStop, Q i := by
    intro i hi
    apply hq i
    simp only [Preemption.all, List.mem_append]
    exact Or.inr hi
  have hb := hhb m1 m2 s hs
  unfold loopPreempted failsafeCheckPreempted
  split
  · obtain ⟨s1, h1, hp1⟩ := writesPreempted_preserve P Q hirq hw p _ _ hq1 hb
    obtain ⟨s2, h2, hp2⟩ := irqs_preserve P Q hirq p.beforeStop s1 hq2 hp1
    exact ⟨_, by simp only [h1, Option.some_bind, h2, Option.map_some'], hstop s2 hp2⟩
  · exact irqs_preserve P Q hirq p.all _ hq hb

theorem mem_irqBytes (l : List Irq) (b m : Nat) (h : Irq.byte b m ∈ l) : b ∈ irqBytes l := by
  induction l with
  | nil => cases h
  | cons i l ih =>
    cases i with
    | byte b1 m1 =>
      simp only [irqBytes, List.mem_cons]
      rcases List.mem_cons.1 h with h1 | h1
      · left
        cases h1
        rfl
      · right
        exact ih h1
    | zeroCross =>
      simp only [irqBytes]
      rcases List.mem_cons.1 h with h1 | h1
      · cases h1
      · exact ih h1

theorem no_start_of_any (l : List Irq)
    (h : (irqBytes l).any (fun b => decide (b % UINT8_MOD = 255)) = false) :
    ∀ i ∈ l, ∀ b m, i = Irq.byte b m → b % UINT8_MOD ≠ 255 := by
  intro i hi b m hib
  rw [hib] at hi
  have hb := mem_irqBytes l b m hi
  rw [List.any_eq_false] at h
  simpa using h b hb

theorem stopped_loopPreempted (m1 m2 now : Nat) (p : Preemption) (s : State)
    (hq : ∀ i ∈ p.all, ∀ b m, i = Irq.byte b m → b % UINT8_MOD ≠ 255)
    (hs : s.currentStatus = Status.STOP) (hoff : ∀ c, s.heaterPins c = false) :
    ∃ s1, loopPreempted m1 m2 now p s = some s1 ∧ s1.currentStatus = Status.STOP ∧
      ∀ c, s1.heaterPins c = false := by
  apply loopPreempted_preserve
    (fun s => s.currentStatus = Status.STOP ∧ ∀ c, s.heaterPins c = false)
    (fun i => ∀ b m, i = Irq.byte b m → b % UINT8_MOD ≠ 255) _ _ _ _ m1 m2 now p s hq
    ⟨hs, hoff⟩
  · intro i s0 hi hp
    cases i with
    | byte b m =>
      have hb : b % UINT8_MOD ≠ 255 := hi b m rfl
      have hst : s0.currentStatus ≠ Status.IN_TRANSACTION := by
        rw [hp.1]
        decide
      exact ⟨_, ISR_ignored b m s0 hb hst, hp.1, hp.2⟩
    | zeroCross =>
      refine ⟨updateOutputs s0, rfl, ?_, ?_⟩
      · rw [updateOutputs_eq, if_pos hp.1]
        exact hp.1
      · rw [updateOutputs_eq, if_pos hp.1]
        exact hp.2
  · intro c s0 hp
    refine ⟨hp.1, fun d => ?_⟩
    show Function.update s0.heaterPins c false d = false
    by_cases hd : d = c
    · rw [hd, Function.update_same]
    · rw [Function.update_noteq hd]
      exact hp.2 d
  · intro a b s0 hp
    refine ⟨?_, fun d => ?_⟩
    · rw [((core_eq_iff _ _).1 (heartbeat_core a b s0)).1]
      exact hp.1
    · rw [heartbeat_heaterPins]
      exact hp.2 d
  · intro s0 hp
    exact ⟨rfl, hp.2⟩

theorem failsafeCheckPreempted_none (now : Nat) (s : State) :
    failsafeCheckPreempted now { beforeWrite := fun _ => [], beforeStop := [] } s
      = some (failsafeCheck now s) := by
  rw [failsafeCheck_eq]
  unfold failsafeCheckPreempted
  split
  · simp only [finRange_resistors, writesPreempted, irqs, Option.some_bind, Option.map_some',
      digitalWriteHeater]
    congr 2
    funext i
    fin_cases i <;> rfl
  · simp only [Preemption.all, finRange_resistors, Preemption.writeIrqs, List.append_nil, irqs]

/-! ## Loop iterations that no edge preempts -/

theorem ISR_pins_status (b m : Nat) (s s1 : State) (h : ISR_SPI_STC_vect b m s = some s1) :
    s1.heaterPins = s.heaterPins ∧
      (s1.currentStatus = Status.STOP → s.currentStatus = Status.STOP) := by
  by_cases hb : b % UINT8_MOD = 255
  · rw [ISR_start b m s hb] at h
    cases h
    exact ⟨rfl, fun h => Status.noConfusion h⟩
  · by_cases hs : s.currentStatus = Status.IN_TRANSACTION
    · by_cases hi : s.index < NUMBER_OF_HEATING_RESISTORS
      · rw [ISR_payload b m s hb hs hi] at h
        cases h
        refine ⟨rfl, fun hstop => ?_⟩
        have hstop2 : (if s.index + 1 ≥ NUMBER_OF_HEATING_RESISTORS then Status.WAITING
            else Status.IN_TRANSACTION) = Status.STOP := hstop
        split at hstop2 <;> exact Status.noConfusion hstop2
      · rw [ISR_outside b m s hb hs hi] at h
        cases h
    · rw [ISR_ignored b m s hb hs] at h
      cases h
      exact ⟨rfl, fun h => h⟩

theorem StopOff_ISR (b m : Nat) (s s1 : State) (hJ : StopOff s)
    (h : ISR_SPI_STC_vect b m s = some s1) : StopOff s1 := by
  obtain ⟨hp, hst⟩ := ISR_pins_status b m s s1 h
  intro hstop c
  rw [hp]
  exact hJ (hst hstop) c

theorem StopOff_updateOutputs (s : State) (hJ : StopOff s) : StopOff (updateOutputs s) := by
  rw [updateOutputs_eq]
  by_cases hs : s.currentStatus = Status.STOP
  · rw [if_pos hs]
    exact hJ
  · rw [if_neg hs]
    exact fun h => absurd h hs

theorem StopOff_heartbeat (m1 m2 : Nat) (s : State) (hJ : StopOff s) :
    StopOff (heartbeat m1 m2 s) := by
  intro hstop c
  rw [heartbeat_heaterPins]
  rw [((core_eq_iff _ _).1 (heartbeat_core m1 m2 s)).1] at hstop
  exact hJ hstop c

theorem StopOff_loop (m1 m2 now : Nat) (s : State) (hJ : StopOff s) :
    StopOff (loop m1 m2 now s) := by
  unfold loop
  rw [failsafeCheck_eq]
  split
  · exact fun _ _ => rfl
  · exact StopOff_heartbeat m1 m2 s hJ

theorem irqs_bytes_pins (l : List Irq) (s s1 : State) (hl : l.all Irq.isByte = true)
    (h : irqs l s = some s1) : s1.heaterPins = s.heaterPins := by
  induction l generalizing s with
  | nil =>
    simp only [irqs, Option.some.injEq] at h
    rw [h]
  | cons i l ih =>
    simp only [List.all_cons, Bool.and_eq_true] at hl
    cases i with
    | zeroCross => exact absurd hl.1 (by decide)
    | byte b m =>
      simp only [irqs, irq] at h
      cases hs : ISR_SPI_STC_vect b m s with
      | none => simp [hs] at h
      | some s2 =>
        rw [hs] at h
        have h2 := ih s2 hl.2 (by simpa using h)
        rw [h2, (ISR_pins_status b m s s2 hs).1]

theorem irqs_bytes_StopOff (l : List Irq) (s s1 : State) (hl : l.all Irq.isByte = true)
    (hJ : StopOff s) (h : irqs l s = some s1) : StopOff s1 := by
  induction l generalizing s with
  | nil =>
    simp only [irqs, Option.some.injEq] at h
    rw [← h]
    exact hJ
  | cons i l ih =>
    simp only [List.all_cons, Bool.and_eq_true] at hl
    cases i with
    | zeroCross => exact absurd hl.1 (by decide)
    | byte b m =>
      simp only [irqs, irq] at h
      cases hs : ISR_SPI_STC_vect b m s with
      | none => simp [hs] at h
      | some s2 =>
        rw [hs] at h
        exact ih s2 hl.2 (StopOff_ISR b m s s2 hJ hs) (by simpa using h)

theorem writesPreempted_bytes_pins (p : Preemption)
    (cs : List (Fin NUMBER_OF_HEATING_RESISTORS)) (s s1 : State)
    (hl : (p.writeIrqs cs).all Irq.isByte = true) (h : writesPreempted p cs s = some s1)
    (c : Fin NUMBER_OF_HEATING_RESISTORS) (hc : c ∈ cs ∨ s.heaterPins c = false) :
    s1.heaterPins c = false := by
  induction cs generalizing s with
  | nil =>
    simp only [writesPreempted, Option.some.injEq] at h
    rw [← h]
    rcases hc with hc | hc
    · cases hc
    · exact hc
  | cons d cs ih =>
    simp only [Preemption.writeIrqs, List.all_append, Bool.and_eq_true] at hl
    simp only [writesPreempted] at h
    cases hs : irqs (p.beforeWrite d) s with
    | none => simp [hs] at h
    | some s2 =>
      rw [hs] at h
      have hp2 := irqs_bytes_pins _ s s2 hl.1 hs
      apply ih (digitalWriteHeater d false s2) hl.2 (by simpa using h)
      by_cases hcd : c = d
      · right
        show Function.update s2.heaterPins d false c = false
        rw [hcd, Function.update_same]
      · rcases hc with hc | hc
        · left
          rcases List.mem_cons.1 hc with h1 | h1
          · exact absurd h1 hcd
          · exact h1
        · right
          show Function.update s2.heaterPins d false c = false
          rw [Function.update_noteq hcd, hp2]
          exact hc

theorem StopOff_loopPreempted (m1 m2 now : Nat) (p : Preemption) (s s1 : State)
    (hl : p.all.all Irq.isByte = true) (hJ : StopOff s)
    (h : loopPreempted m1 m2 now p s = some s1) : StopOff s1 := by
  have hb := StopOff_heartbeat m1 m2 s hJ
  unfold loopPreempted failsafeCheckPreempted at h
  split at h
  · simp only [Preemption.all, List.all_append, Bool.and_eq_true] at hl
    cases hw : writesPreempted p (List.finRange NUMBER_OF_HEATING_RESISTORS)
        (heartbeat m1 m2 s) with
    | none => simp [hw] at h
    | some s2 =>
      rw [hw] at h
      cases hi : irqs p.beforeStop s2 with
      | none => simp [hi] at h
      | some s3 =>
        simp only [Option.some_bind, hi, Option.map_some', Option.some.injEq] at h
        rw [← h]
        intro _ c
        show s3.heaterPins c = false
        rw [irqs_bytes_pins _ s2 s3 hl.2 hi]
        exact writesPreempted_bytes_pins p _ _ s2 hl.1 hw c (Or.inl (List.mem_finRange c))
  · exact irqs_bytes_StopOff p.all _ s1 hl hb h

theorem StopOff_run (es : List Event) (s s1 : State) (hfree : ∀ e ∈ es, edgeFree e = true)
    (hJ : StopOff s) (h : run es s = some s1) : StopOff s1 := by
  induction es generalizing s with
  | nil =>
    simp only [run, Option.some.injEq] at h
    rw [← h]
    exact hJ
  | cons e es ih =>
    have hrest : ∀ x ∈ es, edgeFree x = true := fun x hx => hfree x (List.mem_cons_of_mem e hx)
    have he := hfree e (List.mem_cons_self e es)
    simp only [run] at h
    cases hs : step e s with
    | none => simp [hs] at h
    | some s2 =>
      rw [hs] at h
      apply ih s2 hrest _ (by simpa using h)
      cases e with
      | byte b m => exact StopOff_ISR b m s s2 hJ hs
      | zeroCross =>
        simp only [step, Option.some.injEq] at hs
        rw [← hs]
        exact StopOff_updateOutputs s hJ
      | poll m1 m2 now =>
        simp only [step, Option.some.injEq] at hs
        rw [← hs]
        exact StopOff_loop m1 m2 now s hJ
      | pollPreempted m1 m2 now p =>
        exact StopOff_loopPreempted m1 m2 now p s s2 (by simpa [edgeFree] using he) hJ hs

theorem StopOff_of_edgeFree_run (t : Nat) (es : List Event) (s : State)
    (hfree : ∀ e ∈ es, edgeFree e = true) (h : run es (setup t powerOn) = some s) :
    StopOff s := by
  apply StopOff_run es _ s hfree _ h
  intro hstop
  have hw : (setup t powerOn).currentStatus = Status.WAITING := rfl
  rw [hw] at hstop
  cases hstop

/-! ## The invariant of the reachable states -/

theorem setup_eq (t : Nat) (s : State) :
    setup t s =
      { s with
        semicyclesPerHeatingResistor := fun _ => 0
        currentStatus := Status.WAITING
        ledStatus := LedStatus.ON
        index := 0
        semicyclesCounter := 0
        ledTime := t % UINT32_MOD } := by
  unfold setup
  simp only [forEachResistor_clear]

theorem clamp_le (v : Nat) : clamp v ≤ MAX_NUMBER_OF_SEMICYCLES := by
  unfold clamp
  split <;> omega

theorem Inv_setup (t : Nat) : Inv (setup t powerOn) := by
  rw [setup_eq]
  exact ⟨fun i => Nat.zero_le _, Nat.zero_le _, Nat.succ_pos 5⟩

theorem Inv_ISR (b m : Nat) (s s1 : State) (hinv : Inv s)
    (h : ISR_SPI_STC_vect b m s = some s1) : Inv s1 := by
  obtain ⟨ht, hc, hi⟩ := hinv
  by_cases hb : b % UINT8_MOD = 255
  · rw [ISR_start b m s hb] at h
    cases h
    exact ⟨ht, hc, Nat.succ_pos 5⟩
  · by_cases hs : s.currentStatus = Status.IN_TRANSACTION
    · rw [ISR_payload b m s hb hs hi] at h
      cases h
      refine ⟨?_, hc, ?_⟩
      · intro i
        show Function.update s.semicyclesPerHeatingResistor ⟨s.index, hi⟩
          (clamp (b % UINT8_MOD)) i ≤ MAX_NUMBER_OF_SEMICYCLES
        by_cases hij : i = ⟨s.index, hi⟩
        · rw [hij, Function.update_same]
          exact clamp_le _
        · rw [Function.update_noteq hij]
          exact ht i
      · show (if s.index + 1 ≥ NUMBER_OF_HEATING_RESISTORS then 0 else s.index + 1)
          < NUMBER_OF_HEATING_RESISTORS
        split
        · decide
        · omega
    · rw [ISR_ignored b m s hb hs] at h
      cases h
      exact ⟨ht, hc, hi⟩

theorem ISR_of_Inv (b m : Nat) (s : State) (hinv : Inv s) :
    ∃ s1, ISR_SPI_STC_vect b m s = some s1 := by
  by_cases h255 : b % UINT8_MOD = 255
  · exact ⟨_, ISR_start b m s h255⟩
  · by_cases hs : s.currentStatus = Status.IN_TRANSACTION
    · exact ⟨_, ISR_payload b m s h255 hs hinv.2.2⟩
    · exact ⟨_, ISR_ignored b m s h255 hs⟩

theorem Inv_updateOutputs (s : State) (hinv : Inv s) : Inv (updateOutputs s) := by
  obtain ⟨ht, hc, hi⟩ := hinv
  rw [updateOutputs_eq]
  by_cases hs : s.currentStatus = Status.STOP
  · rw [if_pos hs]
    exact ⟨ht, hc, hi⟩
  · rw [if_neg hs]
    refine ⟨ht, ?_, hi⟩
    show (if (s.semicyclesCounter + 1) % UINT8_MOD > MAX_NUMBER_OF_SEMICYCLES then 0
      else (s.semicyclesCounter + 1) % UINT8_MOD) ≤ MAX_NUMBER_OF_SEMICYCLES
    split <;> omega

theorem Inv_heartbeat (m1 m2 : Nat) (s : State) (hinv : Inv s) : Inv (heartbeat m1 m2 s) := by
  obtain ⟨ht, hc, hi⟩ := hinv
  obtain ⟨_, c2, c3⟩ := (core_eq_iff _ _).1 (heartbeat_core m1 m2 s)
  have c4 := heartbeat_semicyclesCounter m1 m2 s
  exact ⟨by rw [c3]; exact ht, by rw [c4]; exact hc, by rw [c2]; exact hi⟩

theorem Inv_loop (m1 m2 now : Nat) (s : State) (hinv : Inv s) : Inv (loop m1 m2 now s) := by
  have h := Inv_heartbeat m1 m2 s hinv
  unfold loop
  rw [failsafeCheck_eq]
  split
  · exact h
  · exact h

theorem Inv_irq (i : Irq) (s : State) (_hq : True) (hinv : Inv s) :
    ∃ s1, irq i s = some s1 ∧ Inv s1 := by
  cases i with
  | byte b m =>
    obtain ⟨s1, h1⟩ := ISR_of_Inv b m s hinv
    exact ⟨s1, h1, Inv_ISR b m s s1 hinv h1⟩
  | zeroCross => exact ⟨_, rfl, Inv_updateOutputs s hinv⟩

theorem Inv_loopPreempted (m1 m2 now : Nat) (p : Preemption) (s : State) (hinv : Inv s) :
    ∃ s1, loopPreempted m1 m2 now p s = some s1 ∧ Inv s1 :=
  loopPreempted_preserve Inv (fun _ => True) Inv_irq (fun _ _ h => h)
    (fun a b _ h => Inv_heartbeat a b _ h) (fun _ h => h) m1 m2 now p s
    (fun _ _ => trivial) hinv

theorem Inv_step (e : Event) (s s1 : State) (hinv : Inv s) (h : step e s = some s1) :
    Inv s1 := by
  cases e with
  | byte b m => exact Inv_ISR b m s s1 hinv h
  | zeroCross =>
    simp only [step, Option.some.injEq] at h
    rw [← h]
    exact Inv_updateOutputs s hinv
  | poll m1 m2 now =>
    simp only [step, Option.some.injEq] at h
    rw [← h]
    exact Inv_loop m1 m2 now s hinv
  | pollPreempted m1 m2 now p =>
    obtain ⟨s2, h2, hinv2⟩ := Inv_loopPreempted m1 m2 now p s hinv
    simp only [step, h2, Option.some.injEq] at h
    rw [← h]
    exact hinv2

theorem Inv_run (es : List Event) (s s1 : State) (hinv : Inv s) (h : run es s = some s1) :
    Inv s1 := by
  induction es generalizing s with
  | nil =>
    simp only [run, Option.some.injEq] at h
    rw [← h]
    exact hinv
  | cons e es ih =>
    simp only [run] at h
    cases hs : step e s with
    | none => simp [hs] at h
    | some s2 =>
      rw [hs] at h
      exact ih s2 (Inv_step e s s2 hinv hs) (by simpa using h)

theorem Inv_of_reachable (s : State) (h : Reachable s) : Inv s := by
  obtain ⟨t, es, hrun⟩ := h
  exact Inv_run es _ s (Inv_setup t) hrun

/-! ## Consecutive zero-crossing edges -/

theorem edges_core (n : Nat) (s : State) : core (edges n s) = core s := by
  induction n with
  | zero => rfl
  | succ n ih =>
    show core (updateOutputs (edges n s)) = core s
    rw [updateOutputs_core, ih]

theorem edges_currentStatus (n : Nat) (s : State) :
    (edges n s).currentStatus = s.currentStatus :=
  ((core_eq_iff _ _).1 (edges_core n s)).1

theorem edges_thresholds (n : Nat) (s : State) :
    (edges n s).semicyclesPerHeatingResistor = s.semicyclesPerHeatingResistor :=
  ((core_eq_iff _ _).1 (edges_core n s)).2.2

theorem updateOutputs_counter (s : State) (hs : s.currentStatus ≠ Status.STOP)
    (hk : s.semicyclesCounter ≤ 120) :
    (updateOutputs s).semicyclesCounter =
      if s.semicyclesCounter + 1 ≤ 120 then s.semicyclesCounter + 1 else 0 := by
  have h256 : (s.semicyclesCounter + 1) % UINT8_MOD = s.semicyclesCounter + 1 := by
    apply Nat.mod_eq_of_lt
    unfold UINT8_MOD
    omega
  rw [updateOutputs_eq, if_neg hs, h256]
  simp only [MAX_NUMBER_OF_SEMICYCLES]
  by_cases h : s.semicyclesCounter + 1 ≤ 120
  · rw [if_pos h, if_neg (by omega)]
  · rw [if_neg h, if_pos (by omega)]

theorem updateOutputs_pin (s : State) (c : Fin NUMBER_OF_HEATING_RESISTORS)
    (hs : s.currentStatus ≠ Status.STOP) (hk : s.semicyclesCounter ≤ 120) :
    (updateOutputs s).heaterPins c =
      decide (s.semicyclesCounter + 1 ≤ s.semicyclesPerHeatingResistor c) := by
  have h256 : (s.semicyclesCounter + 1) % UINT8_MOD = s.semicyclesCounter + 1 := by
    apply Nat.mod_eq_of_lt
    unfold UINT8_MOD
    omega
  rw [updateOutputs_eq, if_neg hs, h256]

theorem edges_counter (s : State) (hs : s.currentStatus ≠ Status.STOP)
    (h0 : s.semicyclesCounter = 0) (j : Nat) (hj : j ≤ 120) :
    (edges j s).semicyclesCounter = j := by
  induction j with
  | zero => exact h0
  | succ j ih =>
    have hprev := ih (by omega)
    have hst : (edges j s).currentStatus ≠ Status.STOP := by
      rw [edges_currentStatus]
      exact hs
    show (updateOutputs (edges j s)).semicyclesCounter = j + 1
    rw [updateOutputs_counter _ hst (by omega), hprev, if_pos hj]

theorem edges_pin (s : State) (c : Fin NUMBER_OF_HEATING_RESISTORS)
    (hs : s.currentStatus ≠ Status.STOP) (h0 : s.semicyclesCounter = 0) (j : Nat)
    (hj : j ≤ 120) :
    (edges (j + 1) s).heaterPins c = decide (j + 1 ≤ s.semicyclesPerHeatingResistor c) := by
  have hst : (edges j s).currentStatus ≠ Status.STOP := by
    rw [edges_currentStatus]
    exact hs
  have hc := edges_counter s hs h0 j hj
  show (updateOutputs (edges j s)).heaterPins c = _
  rw [updateOutputs_pin _ c hst (by omega), hc, edges_thresholds]

theorem edges_wrap (s : State) (hs : s.currentStatus ≠ Status.STOP)
    (h0 : s.semicyclesCounter = 0) : (edges 121 s).semicyclesCounter = 0 := by
  have hst : (edges 120 s).currentStatus ≠ Status.STOP := by
    rw [edges_currentStatus]
    exact hs
  have hc := edges_counter s hs h0 120 (Nat.le_refl 120)
  show (updateOutputs (edges 120 s)).semicyclesCounter = 0
  rw [updateOutputs_counter _ hst (by omega), hc]
  rfl

/-! ## The failsafe check -/

theorem sub32_add (t0 d : Nat) (ht0 : t0 < UINT32_MOD) (hd : d < UINT32_MOD) :
    sub32 ((t0 + d) % UINT32_MOD) t0 = d := by
  unfold sub32 UINT32_MOD at *
  omega

theorem step_of_Inv (e : Event) (s : State) (hinv : Inv s) : ∃ s1, step e s = some s1 := by
  cases e with
  | byte b m => exact ISR_of_Inv b m s hinv
  | zeroCross => exact ⟨_, rfl⟩
  | poll m1 m2 now => exact ⟨_, rfl⟩
  | pollPreempted m1 m2 now p =>
    obtain ⟨s1, h1, _⟩ := Inv_loopPreempted m1 m2 now p s hinv
    exact ⟨s1, h1⟩

theorem run_of_Inv (es : List Event) (s : State) (hinv : Inv s) : ∃ s1, run es s = some s1 := by
  induction es generalizing s with
  | nil => exact ⟨s, rfl⟩
  | cons e es ih =>
    obtain ⟨s1, h1⟩ := step_of_Inv e s hinv
    obtain ⟨s2, h2⟩ := ih s1 (Inv_step e s s1 hinv h1)
    exact ⟨s2, by simp only [run, h1, Option.some_bind, h2]⟩

/-! ## The claims -/

/-- C1 (complete transaction commit): from every state, a run whose received bytes are START
(255) followed by six payload bytes, none of them 255, possibly interleaved with zero-crossing
edges and with loop iterations that do not fire the failsafe, ends with threshold `i` equal to
the `i`-th payload byte when that byte is at most 120 and 0 otherwise, the cursor at 0 and the
status `WAITING`. -/
theorem transaction_commit (s : State) (es : List Event) (bs : List Nat)
    (hes : spdrOf es = 255 :: bs) (hlen : bs.length = 6)
    (hb : ∀ b ∈ bs, b < 256 ∧ b ≠ 255) (hq : noTrip es s = true) :
    ∃ s1, run es s = some s1 ∧
      (∀ i : Fin NUMBER_OF_HEATING_RESISTORS, s1.semicyclesPerHeatingResistor i =
        if bs.getD i.val 0 ≤ 120 then bs.getD i.val 0 else 0) ∧
      s1.index = 0 ∧ s1.currentStatus = Status.WAITING :=
  run_commit s es [] bs hes ⟨s, rfl⟩ hlen hb hq

/-- Scenario A and D of C1: after a failsafe trip, START followed by 10, 0, 120, 121, 50, 60
commits the thresholds 10, 0, 120, 0, 50, 60 and leaves the status `WAITING`. -/
theorem transaction_commit_witness :
    ∃ s1, run scenarioA afterTrip = some s1 ∧
      thresholds s1 = [10, 0, 120, 0, 50, 60] ∧ s1.index = 0 ∧
      s1.currentStatus = Status.WAITING := by
  obtain ⟨s1, h1, h2, h3, h4⟩ :=
    transaction_commit afterTrip scenarioA [10, 0, 120, 121, 50, 60] rfl rfl
      (by decide) (by decide)
  refine ⟨s1, h1, ?_, h3, h4⟩
  have hf := funext h2
  unfold thresholds
  rw [hf]
  decide

/-- C2 (burst-fire step): in a state whose status is not `STOP` and whose counter `k` is at
most 120, one call of `updateOutputs` drives channel `c` high exactly when
`k + 1 ≤ threshold c` and low otherwise, and stores the counter `k + 1` if `k + 1 ≤ 120` and
0 otherwise. -/
theorem updateOutputs_burst_fire_step (s : State) (hs : s.currentStatus ≠ Status.STOP)
    (hk : s.semicyclesCounter ≤ 120) :
    (∀ c, (updateOutputs s).heaterPins c = true ↔
        s.semicyclesCounter + 1 ≤ s.semicyclesPerHeatingResistor c) ∧
      (∀ c, (updateOutputs s).heaterPins c = false ↔
        ¬ s.semicyclesCounter + 1 ≤ s.semicyclesPerHeatingResistor c) ∧
      (updateOutputs s).semicyclesCounter =
        if s.semicyclesCounter + 1 ≤ 120 then s.semicyclesCounter + 1 else 0 := by
  have h256 : (s.semicyclesCounter + 1) % UINT8_MOD = s.semicyclesCounter + 1 := by
    apply Nat.mod_eq_of_lt
    unfold UINT8_MOD
    omega
  rw [updateOutputs_eq, if_neg hs, h256]
  refine ⟨fun c => by simp, fun c => by simp, ?_⟩
  simp only [MAX_NUMBER_OF_SEMICYCLES]
  by_cases h : s.semicyclesCounter + 1 ≤ 120
  · rw [if_pos h, if_neg (by omega)]
  · rw [if_neg h, if_pos (by omega)]

/-- An instance of C2: at counter 59 with thresholds 60, 0, 120, 59, 1, 61 the edge drives the
channels by comparing 60 with the thresholds and stores the counter 60. -/
theorem updateOutputs_burst_fire_step_witness :
    (midFrame.currentStatus ≠ Status.STOP ∧ midFrame.semicyclesCounter ≤ 120) ∧
      outputs (updateOutputs midFrame) = [true, false, true, false, false, true] ∧
      (updateOutputs midFrame).semicyclesCounter = 60 := by
  have h := updateOutputs_burst_fire_step midFrame (by decide) (by decide)
  refine ⟨⟨by decide, by decide⟩, ?_, ?_⟩
  · have hf : (updateOutputs midFrame).heaterPins =
        fun c => decide (midFrame.semicyclesCounter + 1 ≤
          midFrame.semicyclesPerHeatingResistor c) := by
      funext c
      have := h.1 c
      by_cases hc : midFrame.semicyclesCounter + 1 ≤ midFrame.semicyclesPerHeatingResistor c
      · simp [hc, this.2 hc]
      · have hn : (updateOutputs midFrame).heaterPins c = false := (h.2.1 c).2 hc
        simp [hc, hn]
    unfold outputs
    rw [hf]
    decide
  · rw [h.2.2]
    decide

/-- C3 (failsafe trip threshold): with contact timestamp `t0 = s.protectionTime` and a poll
time `now ≥ t0` (a 32-bit clock value), the loop iteration drives every channel low and sets
the status to `STOP` when `now - t0 ≥ 5000`, and changes neither the outputs nor the status
when `now - t0 < 5000`. -/
theorem loop_failsafe_threshold (s : State) (m1 m2 now : Nat) (hnow : now < UINT32_MOD)
    (h0 : s.protectionTime ≤ now) :
    (now - s.protectionTime ≥ 5000 →
        (∀ c, (loop m1 m2 now s).heaterPins c = false) ∧
          (loop m1 m2 now s).currentStatus = Status.STOP) ∧
      (now - s.protectionTime < 5000 →
        (loop m1 m2 now s).heaterPins = s.heaterPins ∧
          (loop m1 m2 now s).currentStatus = s.currentStatus) := by
  have hsub : sub32 now (heartbeat m1 m2 s).protectionTime = now - s.protectionTime := by
    rw [heartbeat_protectionTime]
    exact sub32_of_le now s.protectionTime hnow h0
  have hcore := heartbeat_core m1 m2 s
  have hstat : (heartbeat m1 m2 s).currentStatus = s.currentStatus :=
    ((core_eq_iff _ _).1 hcore).1
  unfold loop
  rw [failsafeCheck_eq, hsub]
  constructor
  · intro h
    rw [if_pos h]
    exact ⟨fun c => rfl, rfl⟩
  · intro h
    rw [if_neg (by omega)]
    exact ⟨heartbeat_heaterPins m1 m2 s, hstat⟩

/-- Scenario C of C3: with last contact at 1000 ms, the poll at 5999 ms changes nothing and the
poll at 6001 ms leaves every output low and the status `STOP`. -/
theorem loop_failsafe_threshold_witness :
    (5999 < UINT32_MOD ∧ midFrame.protectionTime ≤ 5999 ∧ 6001 < UINT32_MOD) ∧
      (outputs (loop 5999 5999 5999 midFrame) = outputs midFrame ∧
        (loop 5999 5999 5999 midFrame).currentStatus = Status.WAITING) ∧
      (outputs (loop 6001 6001 6001 midFrame) = [false, false, false, false, false, false] ∧
        (loop 6001 6001 6001 midFrame).currentStatus = Status.STOP) := by
  have ha := (loop_failsafe_threshold midFrame 5999 5999 5999 (by decide) (by decide)).2
    (by decide)
  have hb := (loop_failsafe_threshold midFrame 6001 6001 6001 (by decide) (by decide)).1
    (by decide)
  refine ⟨⟨by decide, by decide, by decide⟩, ⟨?_, ?_⟩, ⟨?_, hb.2⟩⟩
  · unfold outputs
    rw [ha.1]
  · rw [ha.2]
    rfl
  · have hf : (loop 6001 6001 6001 midFrame).heaterPins = fun _ => false := funext hb.1
    unfold outputs
    rw [hf]
    decide

/-- C4, as the claim states it, fails: after the failsafe has tripped (status `STOP`, every
output low), a START byte alone, with no payload byte after it, lets the next zero-crossing
edge drive all six outputs high from the old thresholds. -/
theorem outputs_off_until_transaction_counterexample :
    (run tripRun (setup 0 powerOn)).map (fun s => (s.currentStatus, outputs s))
        = some (Status.STOP, [false, false, false, false, false, false]) ∧
      spdrOf [Event.byte 255 7000, Event.zeroCross] = [255] ∧
      (run (tripRun ++ [Event.byte 255 7000, Event.zeroCross]) (setup 0 powerOn)).map outputs
        = some [true, true, true, true, true, true] := by
  decide

/-- C4, amended: once the failsafe has tripped (status `STOP`, every output low), for every
sequence of events that contains no START byte, the run does not fail and after every event
of the sequence the status is still `STOP` and every channel output is low. -/
theorem outputs_off_until_start (s : State) (es : List Event)
    (hs : s.currentStatus = Status.STOP) (hoff : ∀ c, s.heaterPins c = false)
    (hno : ∀ e ∈ es, isStart e = false) (n : Nat) :
    ∃ s1, run (es.take n) s = some s1 ∧ s1.currentStatus = Status.STOP ∧
      ∀ c, s1.heaterPins c = false := by
  have key : ∀ (fs : List Event) (s0 : State), s0.currentStatus = Status.STOP →
      (∀ c, s0.heaterPins c = false) → (∀ e ∈ fs, isStart e = false) →
      ∃ s1, run fs s0 = some s1 ∧ s1.currentStatus = Status.STOP ∧
        ∀ c, s1.heaterPins c = false := by
    intro fs
    induction fs with
    | nil => exact fun s0 h1 h2 _ => ⟨s0, rfl, h1, h2⟩
    | cons e fs ih =>
      intro s0 h1 h2 h3
      have hrest : ∀ x ∈ fs, isStart x = false := fun x hx => h3 x (List.mem_cons_of_mem e hx)
      have he := h3 e (List.mem_cons_self e fs)
      cases e with
      | byte b m =>
        have hb : b % UINT8_MOD ≠ 255 := by simpa [isStart] using he
        have hst : s0.currentStatus ≠ Status.IN_TRANSACTION := by
          rw [h1]
          decide
        simp only [run, step, ISR_ignored b m s0 hb hst, Option.some_bind]
        exact ih _ h1 h2 hrest
      | zeroCross =>
        simp only [run, step, Option.some_bind, updateOutputs_eq, if_pos h1]
        exact ih _ h1 h2 hrest
      | poll m1 m2 now =>
        simp only [run, step, Option.some_bind]
        apply ih _ _ _ hrest
        · unfold loop
          rw [failsafeCheck_eq]
          split
          · rfl
          · rw [((core_eq_iff _ _).1 (heartbeat_core m1 m2 s0)).1]
            exact h1
        · intro c
          unfold loop
          rw [failsafeCheck_eq]
          split
          · rfl
          · rw [heartbeat_heaterPins]
            exact h2 c
      | pollPreempted m1 m2 now p =>
        have hq := no_start_of_any p.all (by simpa [isStart] using he)
        obtain ⟨s1, e1, hs1, hp1⟩ := stopped_loopPreempted m1 m2 now p s0 hq h1 h2
        simp only [run, step, e1, Option.some_bind]
        exact ih s1 hs1 hp1 hrest
  exact key (es.take n) s hs hoff (fun e he => hno e (List.mem_of_mem_take he))

/-- An instance of C4 amended: after the trip, payload-like bytes, edges and a loop iteration
leave the status `STOP` and every output low. -/
theorem outputs_off_until_start_witness :
    (afterTrip.currentStatus = Status.STOP ∧ outputs afterTrip
        = [false, false, false, false, false, false]) ∧
      ∃ s1, run (noStartRun.take 5) afterTrip = some s1 ∧ s1.currentStatus = Status.STOP ∧
        ∀ c, s1.heaterPins c = false :=
  ⟨⟨by decide, by decide⟩,
    outputs_off_until_start afterTrip noStartRun (by decide) (fun _ => rfl) (by decide) 5⟩

/-- C5, as the claim states it, fails: after START and a single payload byte 100 (the
transaction is not complete) the threshold of channel 0 is already 100 instead of the 0 it
had before the START, and the next zero-crossing edge drives channel 0 high. -/
theorem atomic_commit_counterexample :
    thresholds (setup 0 powerOn) = [0, 0, 0, 0, 0, 0] ∧
      (run [Event.byte 255 100, Event.byte 100 101] (setup 0 powerOn)).map
          (fun s => (s.currentStatus, s.index, thresholds s))
        = some (Status.IN_TRANSACTION, 1, [100, 0, 0, 0, 0, 0]) ∧
      (run [Event.byte 255 100, Event.byte 100 101, Event.zeroCross] (setup 0 powerOn)).map
          outputs
        = some [true, false, false, false, false, false] := by
  decide

/-- C5, amended: thresholds are written in place, one per payload byte.  After a START
followed by `k < 6` payload bytes (none 255; edges and loop iterations that do not fire the
failsafe may come in between) the status is `IN_TRANSACTION`, the cursor is `k`, every channel
`i < k` already holds its new value (the byte if at most 120, else 0), every channel `i ≥ k`
still holds the value it had before the START, and these are the values the next call of
`updateOutputs` compares the counter with. -/
theorem thresholds_written_in_place (s : State) (es : List Event) (p : List Nat)
    (hes : spdrOf es = 255 :: p) (hk : p.length < 6)
    (hp : ∀ b ∈ p, b < 256 ∧ b ≠ 255) (hq : noTrip es s = true) :
    ∃ s1, run es s = some s1 ∧
      s1.currentStatus = Status.IN_TRANSACTION ∧ s1.index = p.length ∧
      (∀ i : Fin NUMBER_OF_HEATING_RESISTORS, s1.semicyclesPerHeatingResistor i =
        if i.val < p.length then (if p.getD i.val 0 ≤ 120 then p.getD i.val 0 else 0)
        else s.semicyclesPerHeatingResistor i) ∧
      (∀ i : Fin NUMBER_OF_HEATING_RESISTORS, (updateOutputs s1).heaterPins i =
        decide ((s1.semicyclesCounter + 1) % UINT8_MOD ≤ s1.semicyclesPerHeatingResistor i)) := by
  obtain ⟨s2, e2, hs2, hi2, ht2, _, _⟩ :=
    run_payload_short p
      { s with
        dataReceived := 255
        currentStatus := Status.IN_TRANSACTION
        index := 0
        protectionTime := 0 % UINT32_MOD }
      rfl (by simpa using hk) (mod_byte_ne p hp)
  have hrun : run (bytesOnly (spdrOf es)) s = some s2 := by
    have : bytesOnly (255 :: p) = Event.byte 255 0 :: bytesOnly p := rfl
    rw [hes, this]
    simp only [run, step]
    rw [ISR_start 255 0 s (by decide)]
    simpa using e2
  obtain ⟨s1, e1, hc⟩ := run_of_bytes es s s2 hq hrun
  obtain ⟨c1, c2, c3⟩ := (core_eq_iff s1 s2).1 hc
  have hst : s1.currentStatus = Status.IN_TRANSACTION := c1.trans hs2
  refine ⟨s1, e1, hst, ?_, ?_, ?_⟩
  · rw [c2, hi2]
    simp
  · intro i
    rw [c3, ht2 i]
    simp only [Nat.zero_le, true_and, Nat.zero_add, Nat.sub_zero]
    by_cases hi : i.val < p.length
    · rw [if_pos hi, if_pos hi]
      exact clamp_byte _ (hp _ (getD_mem_of_lt p i.val hi)).1
    · rw [if_neg hi, if_neg hi]
  · intro i
    rw [updateOutputs_eq, if_neg (by rw [hst]; decide)]

/-- An instance of C5 amended: after START, 10, an edge and 121, the cursor is 2, channels 0
and 1 hold 10 and 0, and channels 2 to 5 still hold 120, 59, 1, 61. -/
theorem thresholds_written_in_place_witness :
    ∃ s1, run shortRun midFrame = some s1 ∧ s1.index = 2 ∧
      thresholds s1 = [10, 0, 120, 59, 1, 61] := by
  obtain ⟨s1, h1, _, h3, h4, _⟩ :=
    thresholds_written_in_place midFrame shortRun [10, 121] rfl (by decide) (by decide)
      (by decide)
  refine ⟨s1, h1, h3, ?_⟩
  have hf := funext h4
  unfold thresholds
  rw [hf]
  decide

/-- C6 (threshold range invariant): in every state reachable from `setup` by received bytes
of any value, zero-crossing edges and loop iterations, every threshold is at most 120; and in
such a state a payload byte `v > 120` received during a transaction is stored as 0 in the slot
under the cursor. -/
theorem threshold_range_invariant (s : State) (hr : Reachable s) :
    (∀ i, s.semicyclesPerHeatingResistor i ≤ 120) ∧
      ∀ v m : Nat, 120 < v → v < 256 → v ≠ 255 →
        s.currentStatus = Status.IN_TRANSACTION →
        ∃ (h : s.index < NUMBER_OF_HEATING_RESISTORS) (s1 : State),
          ISR_SPI_STC_vect v m s = some s1 ∧
            s1.semicyclesPerHeatingResistor ⟨s.index, h⟩ = 0 := by
  obtain ⟨ht, _, hi⟩ := Inv_of_reachable s hr
  refine ⟨ht, ?_⟩
  intro v m hv hv256 hv255 hs
  have hmod : v % UINT8_MOD = v := Nat.mod_eq_of_lt (by unfold UINT8_MOD; omega)
  have hb : v % UINT8_MOD ≠ 255 := by
    rw [hmod]
    exact hv255
  refine ⟨hi, _, ISR_payload v m s hb hs hi, ?_⟩
  show Function.update s.semicyclesPerHeatingResistor ⟨s.index, hi⟩ (clamp (v % UINT8_MOD))
    ⟨s.index, hi⟩ = 0
  rw [Function.update_same, clamp_byte v hv256, if_neg (by omega)]

/-- An instance of C6: right after a START the thresholds are in range and the byte 121 is
stored as 0 in slot 0. -/
theorem threshold_range_invariant_witness :
    Reachable receivingState ∧
      (∀ i, receivingState.semicyclesPerHeatingResistor i ≤ 120) ∧
      ∃ (h : receivingState.index < NUMBER_OF_HEATING_RESISTORS) (s1 : State),
        ISR_SPI_STC_vect 121 200 receivingState = some s1 ∧
          s1.semicyclesPerHeatingResistor ⟨receivingState.index, h⟩ = 0 :=
  have hr : Reachable receivingState := ⟨0, [Event.byte 255 100], rfl⟩
  ⟨hr, (threshold_range_invariant receivingState hr).1,
    (threshold_range_invariant receivingState hr).2 121 200 (by decide) (by decide) (by decide)
      rfl⟩

/-- C7 (counter range invariant): in every state reachable from `setup` by zero-crossing
edges, received bytes and loop iterations, the stored counter is at most 120, so the 8-bit
increment of the next edge does not wrap. -/
theorem counter_range_invariant (s : State) (hr : Reachable s) :
    s.semicyclesCounter ≤ 120 ∧
      (s.semicyclesCounter + 1) % UINT8_MOD = s.semicyclesCounter + 1 := by
  obtain ⟨_, hc, _⟩ := Inv_of_reachable s hr
  have hc2 : s.semicyclesCounter ≤ 120 := hc
  refine ⟨hc2, Nat.mod_eq_of_lt ?_⟩
  unfold UINT8_MOD
  omega

/-- An instance of C7: the state after the committed transaction and the trip. -/
theorem counter_range_invariant_witness :
    Reachable trippedState ∧ trippedState.semicyclesCounter ≤ 120 ∧
      (trippedState.semicyclesCounter + 1) % UINT8_MOD = trippedState.semicyclesCounter + 1 :=
  have hr : Reachable trippedState := ⟨0, tripRun, rfl⟩
  ⟨hr, counter_range_invariant trippedState hr⟩

/-- C8 at a failing input: a transaction commits the thresholds 60, 7, 120, 59, 1, 61, the
master falls silent, and in the loop iteration at 6000 ms a zero-crossing edge is served
between the last `digitalWrite(.., LOW)` of line 106 and the assignment of line 108.  The
edge finds the status `WAITING` and drives all six outputs high, then line 108 sets `STOP`:
the state is reachable, its status is `STOP` and every output is high.  A byte other than
START then refreshes the contact timestamp, so the next loop iteration does not fire and the
next edge does nothing: the outputs stay high in `STOP`. -/
theorem stopped_with_outputs_high :
    run preemptedTrip (setup 0 powerOn) = some preemptedState ∧
      Reachable preemptedState ∧
      preemptedState.currentStatus = Status.STOP ∧
      outputs preemptedState = [true, true, true, true, true, true] ∧
      (run (preemptedTrip ++ [Event.byte 7 6001, Event.poll 6002 6002 6002, Event.zeroCross])
          (setup 0 powerOn)).map (fun s => (s.currentStatus, outputs s))
        = some (Status.STOP, [true, true, true, true, true, true]) :=
  ⟨rfl, ⟨0, preemptedTrip, rfl⟩, by decide, by decide, by decide⟩

/-- C9 (START always wins): in every state the byte 255 sets the status to `IN_TRANSACTION`
and the cursor to 0; and a run that receives START, a partial payload `p` of fewer than six
bytes, START, and six payload bytes `bs` (no payload byte being 255) ends with the same
thresholds, cursor and status as a run from the same state that receives START and `bs`
only: the thresholds are those of `bs`, clamped. -/
theorem start_discards_unfinished (s : State) (m : Nat) (es1 es2 : List Event) (p bs : List Nat)
    (h1 : spdrOf es1 = (255 :: p) ++ 255 :: bs) (h2 : spdrOf es2 = 255 :: bs)
    (hp : p.length < 6) (hp255 : ∀ b ∈ p, b < 256 ∧ b ≠ 255)
    (hlen : bs.length = 6) (hb : ∀ b ∈ bs, b < 256 ∧ b ≠ 255)
    (hq1 : noTrip es1 s = true) (hq2 : noTrip es2 s = true) :
    (∃ s0, ISR_SPI_STC_vect 255 m s = some s0 ∧
        s0.currentStatus = Status.IN_TRANSACTION ∧ s0.index = 0) ∧
      ∃ s1 s2, run es1 s = some s1 ∧ run es2 s = some s2 ∧
        s1.semicyclesPerHeatingResistor = s2.semicyclesPerHeatingResistor ∧
        s1.index = s2.index ∧ s1.currentStatus = s2.currentStatus ∧
        ∀ i : Fin NUMBER_OF_HEATING_RESISTORS, s1.semicyclesPerHeatingResistor i =
          if bs.getD i.val 0 ≤ 120 then bs.getD i.val 0 else 0 := by
  refine ⟨⟨_, ISR_start 255 m s (by decide), rfl, rfl⟩, ?_⟩
  have hpre : ∃ s0, run (bytesOnly (255 :: p)) s = some s0 := by
    obtain ⟨s0, e0, _⟩ :=
      run_payload_short p
        { s with
          dataReceived := 255
          currentStatus := Status.IN_TRANSACTION
          index := 0
          protectionTime := 0 % UINT32_MOD }
        rfl (by simpa using hp) (mod_byte_ne p hp255)
    refine ⟨s0, ?_⟩
    have : bytesOnly (255 :: p) = Event.byte 255 0 :: bytesOnly p := rfl
    rw [this]
    simp only [run, step]
    rw [ISR_start 255 0 s (by decide)]
    simpa using e0
  obtain ⟨s1, e1, t1, i1, c1⟩ := run_commit s es1 (255 :: p) bs h1 hpre hlen hb hq1
  obtain ⟨s2, e2, t2, i2, c2⟩ := run_commit s es2 [] bs h2 ⟨s, rfl⟩ hlen hb hq2
  refine ⟨s1, s2, e1, e2, ?_, i1.trans i2.symm, c1.trans c2.symm, t1⟩
  funext i
  rw [t1 i, t2 i]

/-- An instance of C9: START, 10, 121, then scenario A, ends like scenario A alone. -/
theorem start_discards_unfinished_witness :
    ∃ s1 s2, run restartRun midFrame = some s1 ∧ run scenarioA midFrame = some s2 ∧
      s1.semicyclesPerHeatingResistor = s2.semicyclesPerHeatingResistor ∧
      s1.index = s2.index ∧ s1.currentStatus = s2.currentStatus ∧
      thresholds s1 = [10, 0, 120, 0, 50, 60] := by
  obtain ⟨s1, s2, e1, e2, ht, hi, hc, hv⟩ :=
    (start_discards_unfinished midFrame 0 restartRun scenarioA [10, 121]
      [10, 0, 120, 121, 50, 60] rfl rfl (by decide) (by decide) rfl (by decide)
      (by decide) (by decide)).2
  refine ⟨s1, s2, e1, e2, ht, hi, hc, ?_⟩
  have hf := funext hv
  unfold thresholds
  rw [hf]
  decide

/-- C10 (bytes outside a transaction are ignored): in a state whose status is `WAITING`, a
byte other than 255 leaves the status, the cursor, every threshold, the counter and every
output unchanged (as well as the heartbeat variables); only the copy of the received byte and
the contact timestamp change. -/
theorem idle_byte_ignored (s : State) (b m : Nat) (hs : s.currentStatus = Status.WAITING)
    (hb : b < 256) (hb255 : b ≠ 255) :
    ISR_SPI_STC_vect b m s =
        some { s with dataReceived := b, protectionTime := m % UINT32_MOD } ∧
      ∃ s1, ISR_SPI_STC_vect b m s = some s1 ∧
        s1.currentStatus = s.currentStatus ∧ s1.index = s.index ∧
        s1.semicyclesPerHeatingResistor = s.semicyclesPerHeatingResistor ∧
        s1.semicyclesCounter = s.semicyclesCounter ∧ s1.heaterPins = s.heaterPins ∧
        s1.protectionTime = m % UINT32_MOD := by
  have hmod : b % UINT8_MOD = b := Nat.mod_eq_of_lt (by unfold UINT8_MOD; omega)
  have hne : b % UINT8_MOD ≠ 255 := by
    rw [hmod]
    exact hb255
  have hst : s.currentStatus ≠ Status.IN_TRANSACTION := by
    rw [hs]
    decide
  have h := ISR_ignored b m s hne hst
  rw [hmod] at h
  exact ⟨h, _, h, rfl, rfl, rfl, rfl, rfl, rfl⟩

/-- An instance of C10: the byte 61 received at 9000 ms while waiting only moves the contact
timestamp. -/
theorem idle_byte_ignored_witness :
    (midFrame.currentStatus = Status.WAITING ∧ 61 < 256 ∧ 61 ≠ 255) ∧
      ISR_SPI_STC_vect 61 9000 midFrame = some { midFrame with protectionTime := 9000 } :=
  ⟨⟨rfl, by decide, by decide⟩,
    (idle_byte_ignored midFrame 61 9000 rfl (by decide) (by decide)).1⟩

/-- C11 (every byte counts as contact): in every state whose cursor is inside the array
whenever a transaction is in progress (status `WAITING`, `IN_TRANSACTION` or `STOP`), and for
every received byte value, the reception handler returns, and afterwards the contact timestamp
is the time at which the byte was handled. -/
theorem byte_counts_as_contact (s : State) (b m : Nat) (hm : m < UINT32_MOD)
    (hi : s.currentStatus = Status.IN_TRANSACTION → s.index < NUMBER_OF_HEATING_RESISTORS) :
    ∃ s1, ISR_SPI_STC_vect b m s = some s1 ∧ s1.protectionTime = m := by
  have hmod : m % UINT32_MOD = m := Nat.mod_eq_of_lt hm
  by_cases h255 : b % UINT8_MOD = 255
  · exact ⟨_, ISR_start b m s h255, hmod⟩
  · by_cases hs : s.currentStatus = Status.IN_TRANSACTION
    · exact ⟨_, ISR_payload b m s h255 hs (hi hs), hmod⟩
    · exact ⟨_, ISR_ignored b m s h255 hs, hmod⟩

/-- Instances of C11: a START, an in-range payload byte, an out-of-range payload byte and an
ignored byte, handled at 9000 ms in a stopped, a receiving and a waiting state. -/
theorem byte_counts_as_contact_witness :
    (∃ s1, ISR_SPI_STC_vect 255 9000 afterTrip = some s1 ∧ s1.protectionTime = 9000) ∧
      (∃ s1, ISR_SPI_STC_vect 60 9000 receivingState = some s1 ∧ s1.protectionTime = 9000) ∧
      (∃ s1, ISR_SPI_STC_vect 200 9000 receivingState = some s1 ∧ s1.protectionTime = 9000) ∧
      (∃ s1, ISR_SPI_STC_vect 7 9000 midFrame = some s1 ∧ s1.protectionTime = 9000) :=
  ⟨byte_counts_as_contact afterTrip 255 9000 (by decide) (by decide),
    byte_counts_as_contact receivingState 60 9000 (by decide) (by decide),
    byte_counts_as_contact receivingState 200 9000 (by decide) (by decide),
    byte_counts_as_contact midFrame 7 9000 (by decide) (by decide)⟩

/-- C12 (leading half-cycles): from a state that is not stopped, with counter 0 and a channel
`c` whose threshold is `t` (any value, in particular `0 ≤ t ≤ 120`), after the `j`-th
consecutive zero-crossing edge, for `1 ≤ j ≤ 121`, channel `c` is high exactly when `j ≤ t`;
the stored counter is `j` after edge `j ≤ 120` and 0 after edge 121, and after edge 122 the
channel is high exactly when `1 ≤ t`. -/
theorem leading_half_cycles (s : State) (c : Fin NUMBER_OF_HEATING_RESISTORS)
    (hs : s.currentStatus ≠ Status.STOP) (h0 : s.semicyclesCounter = 0) :
    (∀ j, 1 ≤ j → j ≤ 121 →
        ((edges j s).heaterPins c = true ↔ j ≤ s.semicyclesPerHeatingResistor c)) ∧
      (∀ j, j ≤ 120 → (edges j s).semicyclesCounter = j) ∧
      (edges 121 s).semicyclesCounter = 0 ∧
      ((edges 122 s).heaterPins c = true ↔ 1 ≤ s.semicyclesPerHeatingResistor c) := by
  refine ⟨?_, fun j hj => edges_counter s hs h0 j hj, edges_wrap s hs h0, ?_⟩
  · intro j h1 h121
    obtain ⟨k, rfl⟩ : ∃ k, j = k + 1 := ⟨j - 1, by omega⟩
    rw [edges_pin s c hs h0 k (by omega)]
    simp
  · have hst : (edges 121 s).currentStatus ≠ Status.STOP := by
      rw [edges_currentStatus]
      exact hs
    have hw := edges_wrap s hs h0
    have e : edges 122 s = updateOutputs (edges 121 s) := rfl
    rw [e, updateOutputs_pin _ c hst (by omega), hw, edges_thresholds]
    simp

/-- Scenario B of C12: with threshold 60, channel 1 is high after edges 1, 60 and 122 and low
after edges 61 and 121, and the counter is 0 after edge 121 (Scenario B of the spec). -/
theorem leading_half_cycles_witness :
    (frameStart.currentStatus ≠ Status.STOP ∧ frameStart.semicyclesCounter = 0 ∧
        frameStart.semicyclesPerHeatingResistor 1 = 60) ∧
      (edges 1 frameStart).heaterPins 1 = true ∧ (edges 60 frameStart).heaterPins 1 = true ∧
      (edges 61 frameStart).heaterPins 1 = false ∧
      (edges 121 frameStart).heaterPins 1 = false ∧
      (edges 121 frameStart).semicyclesCounter = 0 ∧
      (edges 122 frameStart).heaterPins 1 = true := by
  have h := leading_half_cycles frameStart 1 (by decide) rfl
  have ht : frameStart.semicyclesPerHeatingResistor 1 = 60 := by decide
  rw [ht] at h
  refine ⟨⟨by decide, rfl, ht⟩, ?_, ?_, ?_, ?_, h.2.2.1, ?_⟩
  · exact (h.1 1 (by omega) (by omega)).2 (by omega)
  · exact (h.1 60 (by omega) (by omega)).2 (by omega)
  · cases hp : (edges 61 frameStart).heaterPins 1 with
    | false => rfl
    | true => exact absurd ((h.1 61 (by omega) (by omega)).1 hp) (by omega)
  · cases hp : (edges 121 frameStart).heaterPins 1 with
    | false => rfl
    | true => exact absurd ((h.1 121 (by omega) (by omega)).1 hp) (by omega)
  · exact h.2.2.2.2 (by omega)

set_option maxRecDepth 100000 in
/-- C13 at the start of a frame with thresholds 120, 60, 0, 1, 119, 61: after 120 edges the
stored counter is 120, not 0; it is 0 again only after edge 121, so the cycle of the counter
has 121 edges, of which channel 1 (threshold 60) is high for 60 and low for 61. -/
theorem frame_length_at_frameStart :
    run frameRun (setup 0 powerOn) = some frameStart ∧
      (frameStart.currentStatus = Status.WAITING ∧ frameStart.semicyclesCounter = 0 ∧
        thresholds frameStart = [120, 60, 0, 1, 119, 61]) ∧
      (edges 120 frameStart).semicyclesCounter = 120 ∧
      (edges 121 frameStart).semicyclesCounter = 0 ∧
      (pinTrace 1 121 frameStart).count true = 60 ∧
      (pinTrace 1 121 frameStart).count false = 61 ∧
      pinTrace 1 121 (edges 121 frameStart) = pinTrace 1 121 frameStart ∧
      pinTrace 1 120 (edges 120 frameStart) ≠ pinTrace 1 120 frameStart :=
  ⟨rfl, by decide, by decide, by decide, by decide, by decide, by decide, by decide⟩

set_option maxRecDepth 100000 in
/-- C14 at the start of a frame in which channel 0 has threshold 120: the channel is high
after each of the edges 1 to 120 and low after edge 121, the edge that brings the counter
back to 0; the cycle of the counter contains one edge that turns the channel off. -/
theorem full_power_at_frameStart :
    run frameRun (setup 0 powerOn) = some frameStart ∧
      (frameStart.currentStatus = Status.WAITING ∧ frameStart.semicyclesCounter = 0 ∧
        frameStart.semicyclesPerHeatingResistor 0 = 120) ∧
      pinTrace 0 120 frameStart = List.replicate 120 true ∧
      (edges 120 frameStart).semicyclesCounter = 120 ∧
      (edges 121 frameStart).heaterPins 0 = false ∧
      (edges 121 frameStart).semicyclesCounter = 0 :=
  ⟨rfl, by decide, by decide, by decide, by decide, by decide⟩

/-- C15 (zero-power edge case): in every reachable state that is not stopped, the counter
compared by the next zero-crossing edge is at least 1 (the 8-bit increment does not wrap), and
a channel whose threshold is 0 is low after that edge. -/
theorem zero_power_off (s : State) (c : Fin NUMBER_OF_HEATING_RESISTORS)
    (hr : Reachable s) (hs : s.currentStatus ≠ Status.STOP)
    (ht : s.semicyclesPerHeatingResistor c = 0) :
    1 ≤ (s.semicyclesCounter + 1) % UINT8_MOD ∧
      (s.semicyclesCounter + 1) % UINT8_MOD = s.semicyclesCounter + 1 ∧
      (updateOutputs s).heaterPins c = false := by
  obtain ⟨_, hc, _⟩ := Inv_of_reachable s hr
  have hc2 : s.semicyclesCounter ≤ 120 := hc
  have h256 : (s.semicyclesCounter + 1) % UINT8_MOD = s.semicyclesCounter + 1 := by
    apply Nat.mod_eq_of_lt
    unfold UINT8_MOD
    omega
  refine ⟨by rw [h256]; omega, h256, ?_⟩
  rw [updateOutputs_pin s c hs hc2, ht]
  simp

/-- An instance of C15: right after the first START every threshold is still 0, and an edge
leaves channel 3 low. -/
theorem zero_power_off_witness :
    (Reachable receivingState ∧ receivingState.currentStatus ≠ Status.STOP ∧
        receivingState.semicyclesPerHeatingResistor 3 = 0) ∧
      1 ≤ (receivingState.semicyclesCounter + 1) % UINT8_MOD ∧
      (receivingState.semicyclesCounter + 1) % UINT8_MOD
        = receivingState.semicyclesCounter + 1 ∧
      (updateOutputs receivingState).heaterPins 3 = false :=
  have hr : Reachable receivingState := ⟨0, [Event.byte 255 100], rfl⟩
  ⟨⟨hr, by decide, by decide⟩, zero_power_off receivingState 3 hr (by decide) (by decide)⟩

/-- C16 (frame of the zero-crossing handler): in every state `updateOutputs` leaves every
threshold, the status, the cursor and the contact timestamp unchanged, and in a state whose
status is `STOP` it returns the state as it is, counter and outputs included. -/
theorem updateOutputs_frame (s : State) :
    (updateOutputs s).semicyclesPerHeatingResistor = s.semicyclesPerHeatingResistor ∧
      (updateOutputs s).currentStatus = s.currentStatus ∧
      (updateOutputs s).index = s.index ∧
      (updateOutputs s).protectionTime = s.protectionTime ∧
      (s.currentStatus = Status.STOP → updateOutputs s = s) := by
  rw [updateOutputs_eq]
  by_cases hs : s.currentStatus = Status.STOP
  · rw [if_pos hs]
    exact ⟨rfl, rfl, rfl, rfl, fun _ => rfl⟩
  · rw [if_neg hs]
    exact ⟨rfl, rfl, rfl, rfl, fun h => absurd h hs⟩

/-- An instance of C16: an edge in the stopped state changes nothing, and an edge in the
middle of a frame keeps thresholds, status, cursor and contact timestamp. -/
theorem updateOutputs_frame_witness :
    afterTrip.currentStatus = Status.STOP ∧ updateOutputs afterTrip = afterTrip ∧
      thresholds (updateOutputs midFrame) = [60, 0, 120, 59, 1, 61] ∧
      (updateOutputs midFrame).protectionTime = 1000 := by
  have h := updateOutputs_frame midFrame
  refine ⟨rfl, (updateOutputs_frame afterTrip).2.2.2.2 rfl, ?_, ?_⟩
  · unfold thresholds
    rw [h.1]
    decide
  · rw [h.2.2.2.1]
    rfl

/-- C19 (cursor bound): in every state reachable from `setup` by received bytes of any value,
zero-crossing edges and loop iterations, the cursor is below 6, so the reception handler
returns for every byte (its store is inside the array), and every further sequence of events
runs without a store outside the array. -/
theorem cursor_in_bounds (s : State) (hr : Reachable s) :
    s.index < 6 ∧ (∀ b m, ∃ s1, ISR_SPI_STC_vect b m s = some s1) ∧
      ∀ es, ∃ s1, run es s = some s1 := by
  have hinv := Inv_of_reachable s hr
  exact ⟨hinv.2.2, fun b m => step_of_Inv (Event.byte b m) s hinv,
    fun es => run_of_Inv es s hinv⟩

/-- An instance of C19: after seven payload bytes, a second START, two payload bytes and a
failsafe trip, the cursor is 2 and the next payload byte is handled. -/
theorem cursor_in_bounds_witness :
    Reachable overrunState ∧ overrunState.index = 2 ∧ overrunState.index < 6 ∧
      (∃ s1, ISR_SPI_STC_vect 10 9500 overrunState = some s1) ∧
      ∃ s1, run scenarioA overrunState = some s1 :=
  have hr : Reachable overrunState := ⟨0, overrunRun, rfl⟩
  ⟨hr, by decide, (cursor_in_bounds overrunState hr).1,
    (cursor_in_bounds overrunState hr).2.1 10 9500,
    (cursor_in_bounds overrunState hr).2.2 scenarioA⟩

/-- C20 (timer rollover): for a contact timestamp `t0 = s.protectionTime` and an elapsed time
`d`, both 32-bit values, and the clock reading `now = (t0 + d) mod 2^32`, the subtraction of
the failsafe check yields `d`, so the check fires (every output low, status `STOP`) exactly
when `d ≥ 5000` and otherwise changes nothing, also when `now < t0`; the same holds for the
loop iteration. -/
theorem failsafe_rollover (s : State) (m1 m2 d : Nat) (ht0 : s.protectionTime < UINT32_MOD)
    (hd : d < UINT32_MOD) :
    sub32 ((s.protectionTime + d) % UINT32_MOD) s.protectionTime = d ∧
      failsafeCheck ((s.protectionTime + d) % UINT32_MOD) s =
        (if d ≥ 5000 then { s with heaterPins := fun _ => false, currentStatus := Status.STOP }
          else s) ∧
      (d ≥ 5000 →
        (loop m1 m2 ((s.protectionTime + d) % UINT32_MOD) s).currentStatus = Status.STOP ∧
          ∀ c, (loop m1 m2 ((s.protectionTime + d) % UINT32_MOD) s).heaterPins c = false) ∧
      (d < 5000 →
        (loop m1 m2 ((s.protectionTime + d) % UINT32_MOD) s).currentStatus = s.currentStatus ∧
          (loop m1 m2 ((s.protectionTime + d) % UINT32_MOD) s).heaterPins = s.heaterPins) := by
  have hsub := sub32_add s.protectionTime d ht0 hd
  have hsub2 : sub32 ((s.protectionTime + d) % UINT32_MOD)
      (heartbeat m1 m2 s).protectionTime = d := by
    rw [heartbeat_protectionTime]
    exact hsub
  have hstat : (heartbeat m1 m2 s).currentStatus = s.currentStatus :=
    ((core_eq_iff _ _).1 (heartbeat_core m1 m2 s)).1
  refine ⟨hsub, ?_, ?_, ?_⟩
  · rw [failsafeCheck_eq, hsub]
  · intro h
    unfold loop
    rw [failsafeCheck_eq, hsub2, if_pos h]
    exact ⟨rfl, fun c => rfl⟩
  · intro h
    unfold loop
    rw [failsafeCheck_eq, hsub2, if_neg (by omega)]
    exact ⟨hstat, heartbeat_heaterPins m1 m2 s⟩

/-- An instance of C20: last contact at 4294967000 ms; 4999 ms later the clock reads 4703 and
nothing changes, 5000 ms later it reads 4704 and the failsafe fires. -/
theorem failsafe_rollover_witness :
    (nearRollover.protectionTime < UINT32_MOD ∧ 4999 < UINT32_MOD ∧ 5000 < UINT32_MOD ∧
        (nearRollover.protectionTime + 4999) % UINT32_MOD = 4703 ∧
        (nearRollover.protectionTime + 5000) % UINT32_MOD = 4704) ∧
      failsafeCheck ((nearRollover.protectionTime + 4999) % UINT32_MOD) nearRollover
        = nearRollover ∧
      (loop 0 0 ((nearRollover.protectionTime + 5000) % UINT32_MOD) nearRollover).currentStatus
        = Status.STOP ∧
      ∀ c, (loop 0 0 ((nearRollover.protectionTime + 5000) % UINT32_MOD)
        nearRollover).heaterPins c = false := by
  have ha := failsafe_rollover nearRollover 0 0 4999 (by decide) (by decide)
  have hb := failsafe_rollover nearRollover 0 0 5000 (by decide) (by decide)
  have hb3 := hb.2.2.1 (by decide)
  refine ⟨⟨by decide, by decide, by decide, by decide, by decide⟩, ?_, hb3.1, hb3.2⟩
  rw [ha.2.1, if_neg (by decide)]

end PowerHeatingManager
